import Mathlib

/-!
# Spectral fake-lossless classifier: embedding of `internal/analyzer`

The estimator and the classifier are `spectrum.go`; the per-file analysis and the
worker pool are `analyzer.go`.

Conventions of the embedding.

* Go `float64` quantities are rationals with exact arithmetic; the order
  comparisons of the source are the comparisons of `ℚ`.  NaN, infinities and
  rounding are outside the model (the only division by zero of the source,
  in the Hamming window of a one-sample buffer and in the resolution of an
  empty spectrum, evaluates to `0` here, where Go gives NaN and +Inf; no
  theorem states a value computed from either).
* Go `int` is `Int`; no quantity of the source comes near the 64-bit range.
* `math.Pi`, `math.Cos`, `fft.FFTReal` and `cmplx.Abs` are library code and
  enter as the fields of `Extern`.
* `fmt.Sprintf` results are kept as structured values (`Details`).
* The pointer receiver `s *SpectrumAnalyzer` is threaded explicitly:
  `AnalyzeSpectrum` returns the analyzer after the call and the Go result.
* Ranging over a Go map visits the entries in an unspecified order; the
  order is the explicit argument `IterOrder`.
* The goroutines of `AnalyzeFiles` interleave at their channel and wait-group
  operations; a schedule is a list of `Action`, run by `step` on a `PoolState`.
  A buffered channel is its FIFO buffer and a closed flag.
-/

namespace AudioLossChecker

/-! ## Data model -/

/-- The library primitives used by the estimator, over a type `C` of complex numbers. -/
structure Extern (C : Type) where
  /-- The constant `math.Pi`. -/
  pi : ℚ
  /-- The function `math.Cos`. -/
  cos : ℚ → ℚ
  /-- The function `fft.FFTReal` of go-dsp. -/
  FFTReal : List ℚ → List C
  /-- The function `cmplx.Abs`. -/
  cabs : C → ℚ

/-- The struct `SpectrumAnalyzer`. -/
structure SpectrumAnalyzer where
  sampleRate : Int
  windowSize : Int
deriving DecidableEq, Repr

/-- The four explanation texts of `determineFakeStatus`, with their arguments. -/
inductive Details where
  /-- Text "检测到%s格式的典型截断频率 (%.0f Hz)" with the codec name and maxFreq. -/
  | codecSignature (format : String) (maxFreq : ℚ)
  /-- Text "最高有效频率过低 (%.0f Hz)，可能从有损格式转换而来" with maxFreq. -/
  | tooLow (maxFreq : ℚ)
  /-- Text "在 %.0f Hz 附近检测到明显的频率截断" with cutoffFreq. -/
  | cutoffDetected (cutoffFreq : ℚ)
  /-- Text "频谱正常，最高有效频率 %.0f Hz" with maxFreq. -/
  | normal (maxFreq : ℚ)
deriving DecidableEq, Repr

/-- The struct `SpectrumResult`. -/
structure SpectrumResult where
  MaxFrequency : ℚ
  CutoffFrequency : ℚ
  IsFake : Bool
  Details : Details
  PowerSpectrum : List ℚ
deriving DecidableEq, Repr

/-- Outcome of a Go call returning `(*T, error)`: a value with a nil error, a nil
value with an error, or a run-time panic (slice bounds out of range). -/
inductive GoResult (α : Type) where
  | ok (value : α)
  | err (msg : String)
  | panic
deriving DecidableEq, Repr

/-! ## Operations -/

/-- The constructor `NewSpectrumAnalyzer`: window size 8192. -/
def NewSpectrumAnalyzer (sampleRate : Int) : SpectrumAnalyzer :=
  { sampleRate := sampleRate, windowSize := 8192 }

/-- The loop `for power < n { power <<= 1 }` of `nearestPowerOf2`, run for at most
`fuel` iterations. -/
def nearestPowerOf2Loop (n : Int) : Nat → Int → Int
  | 0, power => power
  | fuel + 1, power =>
    if power < n then nearestPowerOf2Loop n fuel (power * 2) else power

/-- The function `nearestPowerOf2`: `power := 1`, then the doubling loop.  The
fuel `n` is never exhausted (`nearestPowerOf2_ge`). -/
def nearestPowerOf2 (n : Int) : Int :=
  nearestPowerOf2Loop n n.toNat 1

/-- Lines 33-36 of `AnalyzeSpectrum`: a buffer of `n` samples shorter than the
window replaces the window size. -/
def adjustWindowSize (s : SpectrumAnalyzer) (n : Int) : SpectrumAnalyzer :=
  if n < s.windowSize then { s with windowSize := nearestPowerOf2 n } else s

/-- Lines 39-47 of `AnalyzeSpectrum`: the pair `(startIdx, endIdx)` for window size
`w` and `n` samples. -/
def windowIndices (w n : Int) : Int × Int :=
  let startIdx := n / 4
  let endIdx := startIdx + w
  if endIdx > n then
    let endIdx := n
    let startIdx := endIdx - w
    if startIdx < 0 then (0, endIdx) else (startIdx, endIdx)
  else (startIdx, endIdx)

/-- The slice expression `xs[lo:hi]`; `none` is the run-time panic. -/
def sliceRange {α : Type} (xs : List α) (lo hi : Int) : Option (List α) :=
  if 0 ≤ lo ∧ lo ≤ hi ∧ hi ≤ (xs.length : Int) then
    some ((xs.drop lo.toNat).take (hi - lo).toNat)
  else none

/-- Line 50 of `AnalyzeSpectrum`: the analysis window `samples[startIdx:endIdx]`. -/
def extractWindow (s : SpectrumAnalyzer) (samples : List ℚ) : Option (List ℚ) :=
  let idx := windowIndices s.windowSize (samples.length : Int)
  sliceRange samples idx.1 idx.2

/-- The method `applyHammingWindow`. -/
def applyHammingWindow {C : Type} (E : Extern C) (samples : List ℚ) : List ℚ :=
  let n : Int := samples.length
  samples.enum.map fun (p : Nat × ℚ) =>
    let window : ℚ := 0.54 - 0.46 * E.cos (2 * E.pi * (p.1 : ℚ) / ((n - 1 : Int) : ℚ))
    p.2 * window

/-- The method `calculatePowerSpectrum`: the first half of the coefficients, squared
in magnitude. -/
def calculatePowerSpectrum {C : Type} (E : Extern C) (spectrum : List C) : List ℚ :=
  (spectrum.take (spectrum.length / 2)).map fun c => E.cabs c * E.cabs c

/-- The method `calculateNoiseFloor`: the loop accumulates `(sum, count)` over the
indices from `len * 9 / 10` up to `len - 1`. -/
def calculateNoiseFloor (powerSpectrum : List ℚ) : ℚ :=
  let startIdx := powerSpectrum.length * 9 / 10
  let acc := (List.range' startIdx (powerSpectrum.length - startIdx)).foldl
    (fun (a : ℚ × Nat) i => (a.1 + powerSpectrum.getD i 0, a.2 + 1)) (0, 0)
  if acc.2 = 0 then 0 else acc.1 / (acc.2 : ℚ)

/-- The downward loop of `findMaxEffectiveFrequency`; the counter is `i + 1`, the
number of bins not yet visited. -/
def findMaxLoop (powerSpectrum : List ℚ) (threshold freqResolution : ℚ) : Nat → ℚ
  | 0 => 0
  | i + 1 =>
    if powerSpectrum.getD i 0 > threshold then (i : ℚ) * freqResolution
    else findMaxLoop powerSpectrum threshold freqResolution i

/-- The method `findMaxEffectiveFrequency`. -/
def findMaxEffectiveFrequency (powerSpectrum : List ℚ) (freqResolution : ℚ) : ℚ :=
  let noiseFloor := calculateNoiseFloor powerSpectrum
  let threshold := noiseFloor * 10
  findMaxLoop powerSpectrum threshold freqResolution powerSpectrum.length

/-- The first loop of `detectFrequencyCutoff`: the running maximum, from `0.0`. -/
def maxPower (powerSpectrum : List ℚ) : ℚ :=
  powerSpectrum.foldl (fun m power => if power > m then power else m) 0

/-- The downward loop of `detectFrequencyCutoff`; the counter is `i + 1`, the second
argument is `consecutiveLow`. -/
def cutoffLoop (powerSpectrum : List ℚ) (threshold freqResolution : ℚ) : Nat → Nat → ℚ
  | 0, _ => (powerSpectrum.length : ℚ) * freqResolution
  | i + 1, consecutiveLow =>
    if powerSpectrum.getD i 0 < threshold then
      if consecutiveLow + 1 ≥ 10 then ((i + 10 : Nat) : ℚ) * freqResolution
      else cutoffLoop powerSpectrum threshold freqResolution i (consecutiveLow + 1)
    else cutoffLoop powerSpectrum threshold freqResolution i 0

/-- The method `detectFrequencyCutoff`. -/
def detectFrequencyCutoff (powerSpectrum : List ℚ) (freqResolution : ℚ) : ℚ :=
  let threshold := maxPower powerSpectrum * 0.01
  cutoffLoop powerSpectrum threshold freqResolution powerSpectrum.length 0

/-- The map literal `commonCutoffs` of `determineFakeStatus`, in source order. -/
def commonCutoffs : List (ℚ × String) :=
  [(16000, "MP3 128kbps"), (17000, "MP3 160kbps"), (19000, "MP3 192kbps"),
   (20000, "MP3 256kbps"), (21000, "MP3 320kbps")]

/-- An order in which `range commonCutoffs` may visit the map: any arrangement of
its entries. -/
structure IterOrder where
  entries : List (ℚ × String)
  perm : entries.Perm commonCutoffs

/-- The order in which the map literal is written. -/
def IterOrder.declared : IterOrder := ⟨commonCutoffs, List.Perm.refl _⟩

/-- The loop `for cutoff, format := range commonCutoffs` of `determineFakeStatus`:
the first visited entry within 500 Hz of `maxFreq` returns. -/
def signatureLoop (maxFreq : ℚ) : List (ℚ × String) → Option (Bool × Details)
  | [] => none
  | (cutoff, format) :: rest =>
    if |maxFreq - cutoff| < 500 then some (true, Details.codecSignature format maxFreq)
    else signatureLoop maxFreq rest

/-- The method `determineFakeStatus`. -/
def determineFakeStatus (o : IterOrder) (s : SpectrumAnalyzer) (maxFreq cutoffFreq : ℚ) :
    Bool × Details :=
  match signatureLoop maxFreq o.entries with
  | some r => r
  | none =>
    if maxFreq < 18000 then (true, Details.tooLow maxFreq)
    else if cutoffFreq < (s.sampleRate : ℚ) / 2 * 0.9 then
      (true, Details.cutoffDetected cutoffFreq)
    else (false, Details.normal maxFreq)

/-- The method `analyzeFrequencyContent`. -/
def analyzeFrequencyContent (o : IterOrder) (s : SpectrumAnalyzer) (powerSpectrum : List ℚ) :
    SpectrumResult :=
  let freqResolution : ℚ := (s.sampleRate : ℚ) / ((powerSpectrum.length * 2 : Nat) : ℚ)
  let maxFreq := findMaxEffectiveFrequency powerSpectrum freqResolution
  let cutoffFreq := detectFrequencyCutoff powerSpectrum freqResolution
  let r := determineFakeStatus o s maxFreq cutoffFreq
  { MaxFrequency := maxFreq
    CutoffFrequency := cutoffFreq
    IsFake := r.1
    Details := r.2
    PowerSpectrum := powerSpectrum }

/-- The method `AnalyzeSpectrum`: the analyzer after the call and the Go result. -/
def AnalyzeSpectrum {C : Type} (E : Extern C) (o : IterOrder) (s : SpectrumAnalyzer)
    (samples : List ℚ) : SpectrumAnalyzer × GoResult SpectrumResult :=
  if samples.length = 0 then (s, GoResult.err "音频采样数据为空")
  else
    let s1 := adjustWindowSize s (samples.length : Int)
    match extractWindow s1 samples with
    | none => (s1, GoResult.panic)
    | some window =>
      let windowedSamples := applyHammingWindow E window
      let spectrum := E.FFTReal windowedSamples
      let powerSpectrum := calculatePowerSpectrum E spectrum
      (s1, GoResult.ok (analyzeFrequencyContent o s1 powerSpectrum))

/-- Bin `i` starts a run of ten bins of the spectrum, all strictly below `t`. -/
def LowRun (powerSpectrum : List ℚ) (t : ℚ) (i : Nat) : Prop :=
  i + 10 ≤ powerSpectrum.length ∧ ∀ j < 10, powerSpectrum.getD (i + j) 0 < t

@[instance]
def LowRun.decidable (powerSpectrum : List ℚ) (t : ℚ) (i : Nat) :
    Decidable (LowRun powerSpectrum t i) :=
  inferInstanceAs
    (Decidable (i + 10 ≤ powerSpectrum.length ∧ ∀ j < 10, powerSpectrum.getD (i + j) 0 < t))

/-- The value of a Go result, when there is one. -/
def GoResult.value? {α : Type} : GoResult α → Option α
  | GoResult.ok value => some value
  | GoResult.err _ => none
  | GoResult.panic => none

/-- An interpretation of the library primitives over pairs of rationals, for
evaluating the pipeline on concrete buffers: the transform keeps each sample as a
real coefficient (the exact transform of a one-sample window) and the magnitude is
the sum of the absolute parts (the modulus of a real or an imaginary number). -/
def rationalExtern : Extern (ℚ × ℚ) where
  pi := 355 / 113
  cos := fun x => 1 - x * x / 2
  FFTReal := fun xs => xs.map fun x => (x, 0)
  cabs := fun c => |c.1| + |c.2|

/-! ## The per-file analysis and the worker pool (`internal/analyzer/analyzer.go`)

The decoders sit on the file system and on third-party libraries; `Analyzer`
carries what `decoderRegistry.DecodeFile` answers for a path, and `AudioFile`
what the getters of the interface `types.AudioFile` answer.  Printing and the
progress bar are left out.  A run-time panic is the absence of a result. -/

/-- The struct `types.AnalyzerConfig`. -/
structure AnalyzerConfig where
  CutoffFreq : ℚ
  Concurrency : Int
  Quiet : Bool
  OnlyFake : Bool
  JSONOutput : Bool
deriving DecidableEq, Repr

/-- The struct `types.AudioMetadata`. -/
structure AudioMetadata where
  Title : String
  Artist : String
  Album : String
  Year : String
  Genre : String
  Duration : String
deriving DecidableEq, Repr

/-- The text of `AnalysisDetails.Details`. -/
inductive Explanation where
  /-- The zero value, the empty string. -/
  | empty
  /-- The explanation of the spectrum verdict, copied. -/
  | spectrum (details : Details)
  /-- Text "最高频率 %.0f Hz 低于设定阈值 %.0f Hz" with MaxFrequency and CutoffFreq. -/
  | belowThreshold (maxFreq cutoffFreq : ℚ)
deriving DecidableEq, Repr

/-- The struct `types.AnalysisDetails`. -/
structure AnalysisDetails where
  IsFake : Bool
  CutoffHz : ℚ
  Details : Explanation
  SampleRate : Int
  BitDepth : Int
  Channels : Int
  Duration : ℚ
  MaxFrequency : ℚ
deriving DecidableEq, Repr

/-- The zero value of `types.AnalysisDetails`. -/
def AnalysisDetails.zero : AnalysisDetails :=
  { IsFake := false, CutoffHz := 0, Details := Explanation.empty, SampleRate := 0,
    BitDepth := 0, Channels := 0, Duration := 0, MaxFrequency := 0 }

/-- The zero value of `types.AudioMetadata`. -/
def AudioMetadata.zero : AudioMetadata :=
  { Title := "", Artist := "", Album := "", Year := "", Genre := "", Duration := "" }

/-- The struct `types.AnalysisResult`. -/
structure AnalysisResult where
  FilePath : String
  Format : String
  Metadata : AudioMetadata
  Status : String
  Analysis : AnalysisDetails
  Error : String
deriving DecidableEq, Repr

/-- A decoded file behind the interface `types.AudioFile`: the answers of `GetFormat`,
`GetSampleRate`, `GetBitDepth`, `GetChannels`, `GetDuration().Seconds()`,
`GetSamples` (samples or an error text) and `GetMetadata`. -/
structure AudioFile where
  format : String
  sampleRate : Int
  bitDepth : Int
  channels : Int
  duration : ℚ
  samples : Except String (List ℚ)
  metadata : AudioMetadata

/-- The struct `Analyzer`: the configuration and, for the registry with the files
behind it, the outcome of `decoderRegistry.DecodeFile` (a file or an error text). -/
structure Analyzer where
  config : AnalyzerConfig
  DecodeFile : String → Except String AudioFile

/-- Lines 133-161 of `analyzeFile`: the analysis is filled from the spectrum
verdict, the configured threshold is applied, and the status is set. -/
def fillAnalysis (config : AnalyzerConfig) (audioFile : AudioFile) (result : AnalysisResult)
    (spectrumResult : SpectrumResult) : AnalysisResult :=
  let analysis : AnalysisDetails :=
    { IsFake := spectrumResult.IsFake
      CutoffHz := spectrumResult.CutoffFrequency
      Details := Explanation.spectrum spectrumResult.Details
      SampleRate := audioFile.sampleRate
      BitDepth := audioFile.bitDepth
      Channels := audioFile.channels
      Duration := audioFile.duration
      MaxFrequency := spectrumResult.MaxFrequency }
  let analysis : AnalysisDetails :=
    if spectrumResult.MaxFrequency < config.CutoffFreq then
      { analysis with
        IsFake := true
        Details :=
          if !spectrumResult.IsFake then
            Explanation.belowThreshold spectrumResult.MaxFrequency config.CutoffFreq
          else analysis.Details }
    else analysis
  { result with
    Analysis := analysis
    Status := if analysis.IsFake then "FAKE" else "OK" }

/-- The method `analyzeFile`; `none` is a run-time panic. -/
def analyzeFile {C : Type} (E : Extern C) (o : IterOrder) (a : Analyzer) (filePath : String) :
    Option AnalysisResult :=
  let result : AnalysisResult :=
    { FilePath := filePath, Format := "", Metadata := AudioMetadata.zero, Status := "ERROR",
      Analysis := AnalysisDetails.zero, Error := "" }
  match a.DecodeFile filePath with
  | Except.error err => some { result with Error := "解码失败: " ++ err }
  | Except.ok audioFile =>
    let result := { result with Format := audioFile.format, Metadata := audioFile.metadata }
    match audioFile.samples with
    | Except.error err => some { result with Error := "读取音频数据失败: " ++ err }
    | Except.ok samples =>
      let spectrumAnalyzer := NewSpectrumAnalyzer audioFile.sampleRate
      match (AnalyzeSpectrum E o spectrumAnalyzer samples).2 with
      | GoResult.panic => none
      | GoResult.err err => some { result with Error := "频谱分析失败: " ++ err }
      | GoResult.ok spectrumResult =>
        some (fillAnalysis a.config audioFile result spectrumResult)

/-- Decoding the file fails, or reading its samples fails, or it has no samples. -/
def analysisFails (a : Analyzer) (filePath : String) : Bool :=
  match a.DecodeFile filePath with
  | Except.error _ => true
  | Except.ok audioFile =>
    match audioFile.samples with
    | Except.error _ => true
    | Except.ok samples => samples.isEmpty

/-- A worker goroutine of `AnalyzeFiles`, between two channel operations. -/
inductive Worker where
  /-- At `for filePath := range jobs`, about to receive. -/
  | idle
  /-- After `analyzeFile` has returned `result`, about to run `results <- result`. -/
  | holding (result : AnalysisResult)
  /-- The loop is left and `wg.Done()` has run. -/
  | done
deriving DecidableEq, Repr

/-- The state of `AnalyzeFiles` once its goroutines are started (line 75): the paths
the sender has still to send, the buffers of the two channels and whether they are
closed, the workers, the results collected by the main loop, and whether that loop
is left.  The wait group counts the workers that are not `done`. -/
structure PoolState where
  pending : List String
  jobs : List String
  jobsClosed : Bool
  workers : List Worker
  results : List AnalysisResult
  resultsClosed : Bool
  allResults : List AnalysisResult
  returned : Bool
deriving DecidableEq, Repr

/-- One scheduling choice: which goroutine performs its next channel operation. -/
inductive Action where
  /-- Sender: `jobs <- filePath`. -/
  | send
  /-- Sender: `close(jobs)` after its loop. -/
  | closeJobs
  /-- Worker `i`: a path is received from `jobs` and `analyzeFile` runs on it (the
  map of the classifier being visited in order `o`). -/
  | receive (i : Nat) (o : IterOrder)
  /-- Worker `i`: `jobs` is closed and drained, the loop ends, `wg.Done()`. -/
  | leave (i : Nat)
  /-- Worker `i`: `results <- result`. -/
  | emit (i : Nat)
  /-- Waiter: `wg.Wait()` returns and `close(results)` runs. -/
  | closeResults
  /-- Main loop: a result is received from `results` and appended to `allResults`. -/
  | collect
  /-- Main loop: `results` is closed and drained, the loop ends. -/
  | finish

/-- The state after line 75 of `AnalyzeFiles`: `Concurrency` workers started, nothing
sent yet. -/
def initState (a : Analyzer) (filePaths : List String) : PoolState :=
  { pending := filePaths
    jobs := []
    jobsClosed := false
    workers := List.replicate a.config.Concurrency.toNat Worker.idle
    results := []
    resultsClosed := false
    allResults := []
    returned := false }

/-- One step of `AnalyzeFiles` with both channels of capacity `capacity`; `none` when
the action cannot run in the state: the goroutine is elsewhere or blocked, or the
operation panics (a send on a closed channel, a panic inside `analyzeFile`). -/
def step {C : Type} (E : Extern C) (a : Analyzer) (capacity : Nat) :
    Action → PoolState → Option PoolState
  | Action.send, s =>
    match s.pending with
    | [] => none
    | filePath :: rest =>
      if s.jobs.length < capacity ∧ s.jobsClosed = false then
        some { s with pending := rest, jobs := s.jobs ++ [filePath] }
      else none
  | Action.closeJobs, s =>
    if s.pending = [] ∧ s.jobsClosed = false then some { s with jobsClosed := true } else none
  | Action.receive i o, s =>
    match s.workers[i]?, s.jobs with
    | some Worker.idle, filePath :: rest =>
      match analyzeFile E o a filePath with
      | some result =>
        some { s with jobs := rest, workers := s.workers.set i (Worker.holding result) }
      | none => none
    | _, _ => none
  | Action.leave i, s =>
    match s.workers[i]? with
    | some Worker.idle =>
      if s.jobs = [] ∧ s.jobsClosed = true then
        some { s with workers := s.workers.set i Worker.done }
      else none
    | _ => none
  | Action.emit i, s =>
    match s.workers[i]? with
    | some (Worker.holding result) =>
      if s.results.length < capacity ∧ s.resultsClosed = false then
        some { s with results := s.results ++ [result], workers := s.workers.set i Worker.idle }
      else none
    | _ => none
  | Action.closeResults, s =>
    if (∀ w ∈ s.workers, w = Worker.done) ∧ s.resultsClosed = false then
      some { s with resultsClosed := true }
    else none
  | Action.collect, s =>
    if s.returned = false then
      match s.results with
      | result :: rest => some { s with results := rest, allResults := s.allResults ++ [result] }
      | [] => none
    else none
  | Action.finish, s =>
    if s.returned = false ∧ s.results = [] ∧ s.resultsClosed = true then
      some { s with returned := true }
    else none

/-- A schedule run from a state: the actions are taken in turn, `none` when one of
them cannot run. -/
def run {C : Type} (E : Extern C) (a : Analyzer) (capacity : Nat) :
    List Action → PoolState → Option PoolState
  | [], s => some s
  | act :: rest, s =>
    match step E a capacity act s with
    | some s1 => run E a capacity rest s1
    | none => none

/-- The results held by workers that have analysed a file and not yet sent it. -/
def heldResults : List Worker → List AnalysisResult
  | [] => []
  | Worker.holding result :: rest => result :: heldResults rest
  | _ :: rest => heldResults rest

/-- The channel operations a worker has still to cause: a holding worker sends, its
result is collected, and it leaves; an idle worker leaves. -/
def Worker.weight : Worker → Nat
  | Worker.idle => 1
  | Worker.holding _ => 3
  | Worker.done => 0

/-- The number of steps left in a state: every step lowers it by one. -/
def PoolState.stepsLeft (s : PoolState) : Nat :=
  4 * s.pending.length + 3 * s.jobs.length + (if s.jobsClosed then 0 else 1) +
    (s.workers.map Worker.weight).sum + s.results.length +
    (if s.resultsClosed then 0 else 1) + (if s.returned then 0 else 1)

/-- What holds of every state `AnalyzeFiles` reaches on `filePaths`: the files still
to be sent or queued, analysed, together with the results held, queued and
collected, are the analysed input files; a closed `jobs` has nothing left to send;
a worker has left only after `jobs` was closed and drained; `results` is closed
only after every worker has left; the pool has `Concurrency` workers; the main
loop is left only on the closed, drained `results`. -/
def PoolInv {C : Type} (E : Extern C) (a : Analyzer) (filePaths : List String)
    (s : PoolState) : Prop :=
  ((s.pending ++ s.jobs).map (analyzeFile E IterOrder.declared a) ++
      (heldResults s.workers ++ s.results ++ s.allResults).map some).Perm
    (filePaths.map (analyzeFile E IterOrder.declared a)) ∧
  (s.jobsClosed = true → s.pending = []) ∧
  (Worker.done ∈ s.workers → s.jobsClosed = true ∧ s.jobs = []) ∧
  (s.resultsClosed = true → ∀ w ∈ s.workers, w = Worker.done) ∧
  s.workers.length = a.config.Concurrency.toNat ∧
  (s.returned = true → s.resultsClosed = true ∧ s.results = [])

/-- An analyzer over four files, for evaluating the definitions: one decodes with
three samples, one fails to decode, one fails in the sample read, one is empty. -/
def sampleAnalyzer : Analyzer where
  config :=
    { CutoffFreq := 18000, Concurrency := 2, Quiet := false, OnlyFake := false,
      JSONOutput := false }
  DecodeFile := fun filePath =>
    if filePath = "a.wav" then
      Except.ok
        { format := "WAV", sampleRate := 44100, bitDepth := 16, channels := 1, duration := 0,
          samples := Except.ok [1 / 2, -1 / 4, 1 / 8], metadata := AudioMetadata.zero }
    else if filePath = "b.flac" then
      Except.ok
        { format := "FLAC", sampleRate := 44100, bitDepth := 16, channels := 2, duration := 0,
          samples := Except.error "unexpected EOF", metadata := AudioMetadata.zero }
    else if filePath = "c.wav" then
      Except.ok
        { format := "WAV", sampleRate := 44100, bitDepth := 16, channels := 1, duration := 0,
          samples := Except.ok [], metadata := AudioMetadata.zero }
    else Except.error "不支持的音频格式: mp3"

/-! ## Window selection -/

theorem nearestPowerOf2Loop_spec (n : Int) : ∀ (fuel : Nat) (power : Int) (k : Nat),
    power = 2 ^ k → n ≤ (fuel : Int) + power → (k = 0 ∨ power < 2 * n) →
    ∃ j : Nat, nearestPowerOf2Loop n fuel power = 2 ^ j ∧ n ≤ 2 ^ j ∧
      (j = 0 ∨ (2 : Int) ^ j < 2 * n) := by
  intro fuel
  induction fuel with
  | zero =>
    intro power k hk hle hlow
    refine ⟨k, by simp [nearestPowerOf2Loop, hk], ?_, ?_⟩
    · rw [← hk]; simpa using hle
    · rw [← hk]; exact hlow
  | succ f ih =>
    intro power k hk hle hlow
    have hpos : (0 : Int) < power := by rw [hk]; positivity
    by_cases hlt : power < n
    · have hstep : nearestPowerOf2Loop n (f + 1) power = nearestPowerOf2Loop n f (power * 2) := by
        simp [nearestPowerOf2Loop, hlt]
      rw [hstep]
      refine ih (power * 2) (k + 1) ?_ ?_ ?_
      · rw [hk, pow_succ]
      · push_cast at hle; omega
      · right; omega
    · have hstep : nearestPowerOf2Loop n (f + 1) power = power := by
        simp [nearestPowerOf2Loop, hlt]
      rw [hstep]
      refine ⟨k, hk, ?_, ?_⟩
      · rw [← hk]; omega
      · rw [← hk]; exact hlow

/-- The doubling loop leaves by its exit condition: the result is the least power of
two that is at least `n`. -/
theorem nearestPowerOf2_spec (n : Int) :
    ∃ j : Nat, nearestPowerOf2 n = 2 ^ j ∧ n ≤ 2 ^ j ∧
      ∀ m : Nat, n ≤ 2 ^ m → (2 : Int) ^ j ≤ 2 ^ m := by
  obtain ⟨j, hj, hge, hlow⟩ :=
    nearestPowerOf2Loop_spec n n.toNat 1 0 (by norm_num) (by omega) (Or.inl rfl)
  refine ⟨j, hj, hge, ?_⟩
  intro m hm
  rcases hlow with h0 | hlt
  · subst h0
    simpa using (one_le_pow₀ (by norm_num : (1 : Int) ≤ 2) : (1 : Int) ≤ 2 ^ m)
  · have h1 : (2 : Int) ^ j < 2 ^ (m + 1) := by
      rw [pow_succ]; omega
    have h2 : j < m + 1 := (pow_lt_pow_iff_right₀ (by norm_num : (1 : Int) < 2)).1 h1
    exact pow_le_pow_right₀ (by norm_num) (by omega)

theorem nearestPowerOf2_ge (n : Int) : n ≤ nearestPowerOf2 n := by
  obtain ⟨j, hj, hge, _⟩ := nearestPowerOf2_spec n
  rw [hj]; exact hge

theorem nearestPowerOf2_pos (n : Int) : 0 < nearestPowerOf2 n := by
  obtain ⟨j, hj, _, _⟩ := nearestPowerOf2_spec n
  rw [hj]; positivity

theorem adjustWindowSize_windowSize (s : SpectrumAnalyzer) (n : Int) :
    (adjustWindowSize s n).windowSize =
      if n < s.windowSize then nearestPowerOf2 n else s.windowSize := by
  unfold adjustWindowSize
  split <;> rfl

/-- The window size stays positive across the short-buffer adjustment. -/
theorem adjustWindowSize_pos (s : SpectrumAnalyzer) (n : Int) (hs : 0 < s.windowSize) :
    0 < (adjustWindowSize s n).windowSize := by
  rw [adjustWindowSize_windowSize]
  split
  · exact nearestPowerOf2_pos n
  · exact hs

/-- After the adjustment the window size is at most the buffer length, or at least
it; the extracted window then has `min n w` samples, `w` the size before. -/
theorem adjustWindowSize_min (s : SpectrumAnalyzer) (n : Int) :
    min n (adjustWindowSize s n).windowSize = min n s.windowSize := by
  rw [adjustWindowSize_windowSize]
  split
  · have := nearestPowerOf2_ge n
    omega
  · rfl

theorem windowIndices_bounds (w n : Int) (hw : 0 ≤ w) (hn : 0 ≤ n) :
    0 ≤ (windowIndices w n).1 ∧ (windowIndices w n).1 ≤ (windowIndices w n).2 ∧
      (windowIndices w n).2 ≤ n ∧
      (windowIndices w n).2 - (windowIndices w n).1 = min n w := by
  unfold windowIndices
  simp only
  split_ifs <;> simp only <;> omega

theorem windowIndices_fit (w n : Int) (h : n / 4 + w ≤ n) :
    windowIndices w n = (n / 4, n / 4 + w) := by
  unfold windowIndices
  simp only
  rw [if_neg (by omega)]

theorem windowIndices_shift (w n : Int) (h : ¬ n / 4 + w ≤ n) :
    windowIndices w n = (max 0 (n - w), n) := by
  unfold windowIndices
  simp only
  rw [if_pos (by omega)]
  split_ifs with h0
  · rw [max_eq_left (by omega)]
  · rw [max_eq_right (by omega)]

theorem sliceRange_some {α : Type} (xs : List α) (lo hi : Int)
    (h0 : 0 ≤ lo) (h1 : lo ≤ hi) (h2 : hi ≤ (xs.length : Int)) :
    ∃ ys, sliceRange xs lo hi = some ys ∧ (ys.length : Int) = hi - lo := by
  refine ⟨(xs.drop lo.toNat).take (hi - lo).toNat, ?_, ?_⟩
  · unfold sliceRange
    rw [if_pos ⟨h0, h1, h2⟩]
  · rw [List.length_take, List.length_drop]
    omega

theorem sliceRange_full {α : Type} (xs : List α) :
    sliceRange xs 0 (xs.length : Int) = some xs := by
  unfold sliceRange
  rw [if_pos ⟨le_refl _, by omega, le_refl _⟩]
  simp

/-- The slice of `AnalyzeSpectrum` is always in range once the window size is
positive, and has `min n w` samples. -/
theorem extractWindow_some (s : SpectrumAnalyzer) (samples : List ℚ)
    (hs : 0 < s.windowSize) :
    ∃ window, extractWindow s samples = some window ∧
      (window.length : Int) = min (samples.length : Int) s.windowSize := by
  obtain ⟨h0, h1, h2, h3⟩ :=
    windowIndices_bounds s.windowSize (samples.length : Int) (le_of_lt hs) (by omega)
  obtain ⟨ys, hys, hlen⟩ := sliceRange_some samples _ _ h0 h1 h2
  exact ⟨ys, hys, by rw [hlen, h3]⟩

/-- A buffer no longer than the window is taken whole. -/
theorem extractWindow_whole (s : SpectrumAnalyzer) (samples : List ℚ)
    (hs : (samples.length : Int) ≤ s.windowSize) :
    extractWindow s samples = some samples := by
  unfold extractWindow
  simp only
  by_cases hfit : (samples.length : Int) / 4 + s.windowSize ≤ (samples.length : Int)
  · rw [windowIndices_fit _ _ hfit]
    have h4 : (samples.length : Int) / 4 = 0 := by omega
    have hw : s.windowSize = (samples.length : Int) := by omega
    simp only [h4, hw, zero_add]
    exact sliceRange_full samples
  · rw [windowIndices_shift _ _ hfit, max_eq_left (by omega)]
    exact sliceRange_full samples

theorem applyHammingWindow_length {C : Type} (E : Extern C) (samples : List ℚ) :
    (applyHammingWindow E samples).length = samples.length := by
  simp [applyHammingWindow]

theorem calculatePowerSpectrum_length {C : Type} (E : Extern C) (spectrum : List C) :
    (calculatePowerSpectrum E spectrum).length = spectrum.length / 2 := by
  simp [calculatePowerSpectrum]
  omega

theorem analyzeFrequencyContent_PowerSpectrum (o : IterOrder) (s : SpectrumAnalyzer)
    (P : List ℚ) : (analyzeFrequencyContent o s P).PowerSpectrum = P := rfl

/-- Unfolding of `AnalyzeSpectrum` on a non-empty buffer whose window is `window`. -/
theorem AnalyzeSpectrum_eq {C : Type} (E : Extern C) (o : IterOrder) (s : SpectrumAnalyzer)
    (samples window : List ℚ) (hne : samples.length ≠ 0)
    (hwin : extractWindow (adjustWindowSize s (samples.length : Int)) samples = some window) :
    AnalyzeSpectrum E o s samples =
      (adjustWindowSize s (samples.length : Int),
        GoResult.ok (analyzeFrequencyContent o (adjustWindowSize s (samples.length : Int))
          (calculatePowerSpectrum E (E.FFTReal (applyHammingWindow E window))))) := by
  unfold AnalyzeSpectrum
  rw [if_neg hne]
  simp only [hwin]

theorem AnalyzeSpectrum_empty {C : Type} (E : Extern C) (o : IterOrder) (s : SpectrumAnalyzer) :
    AnalyzeSpectrum E o s [] = (s, GoResult.err "音频采样数据为空") := by
  simp [AnalyzeSpectrum]

/-! ## The classification rules -/

theorem signatureLoop_none (maxFreq : ℚ) : ∀ (l : List (ℚ × String)),
    (∀ e ∈ l, ¬ |maxFreq - e.1| < 500) → signatureLoop maxFreq l = none := by
  intro l
  induction l with
  | nil => intro _; rfl
  | cons e rest ih =>
    intro h
    obtain ⟨cutoff, format⟩ := e
    have hhead : ¬ |maxFreq - cutoff| < 500 := h (cutoff, format) (List.mem_cons_self _ _)
    simp only [signatureLoop, if_neg hhead]
    exact ih fun e he => h e (List.mem_cons_of_mem _ he)

theorem signatureLoop_some (maxFreq : ℚ) (e : ℚ × String) : ∀ (l : List (ℚ × String)),
    e ∈ l → |maxFreq - e.1| < 500 → (∀ e' ∈ l, |maxFreq - e'.1| < 500 → e' = e) →
    signatureLoop maxFreq l = some (true, Details.codecSignature e.2 maxFreq) := by
  intro l
  induction l with
  | nil => intro hmem; cases hmem
  | cons x rest ih =>
    intro hmem hnear huniq
    obtain ⟨cutoff, format⟩ := x
    by_cases hx : |maxFreq - cutoff| < 500
    · have hxe : (cutoff, format) = e := huniq _ (List.mem_cons_self _ _) hx
      subst hxe
      simp only [signatureLoop, if_pos hx]
    · simp only [signatureLoop, if_neg hx]
      have hrest : e ∈ rest := by
        rcases List.mem_cons.1 hmem with h | h
        · subst h; exact absurd hnear hx
        · exact h
      exact ih hrest hnear fun e' he' => huniq e' (List.mem_cons_of_mem _ he')

/-- The signatures lie at least 1000 Hz apart, so at most one of them is within
500 Hz of a frequency. -/
theorem commonCutoffs_unique (maxFreq : ℚ) (e e' : ℚ × String)
    (he : e ∈ commonCutoffs) (he' : e' ∈ commonCutoffs)
    (hn : |maxFreq - e.1| < 500) (hn' : |maxFreq - e'.1| < 500) : e' = e := by
  rw [abs_lt] at hn hn'
  simp only [commonCutoffs, List.mem_cons, List.mem_singleton, List.not_mem_nil,
    or_false] at he he'
  rcases he with h | h | h | h | h <;> rcases he' with h' | h' | h' | h' | h' <;>
    subst h <;> subst h' <;> first | rfl | (exfalso; simp only at hn hn'; linarith)

theorem signatureLoop_entries_some (o : IterOrder) (maxFreq : ℚ) (e : ℚ × String)
    (he : e ∈ commonCutoffs) (hn : |maxFreq - e.1| < 500) :
    signatureLoop maxFreq o.entries = some (true, Details.codecSignature e.2 maxFreq) :=
  signatureLoop_some maxFreq e o.entries (o.perm.mem_iff.2 he) hn fun e' he' hn' =>
    commonCutoffs_unique maxFreq e e' he (o.perm.mem_iff.1 he') hn hn'

theorem signatureLoop_entries_none (o : IterOrder) (maxFreq : ℚ)
    (h : ∀ e ∈ commonCutoffs, ¬ |maxFreq - e.1| < 500) :
    signatureLoop maxFreq o.entries = none :=
  signatureLoop_none maxFreq o.entries fun e he => h e (o.perm.mem_iff.1 he)

theorem determineFakeStatus_of_match (o : IterOrder) (s : SpectrumAnalyzer)
    (maxFreq cutoffFreq : ℚ) (e : ℚ × String)
    (he : e ∈ commonCutoffs) (hn : |maxFreq - e.1| < 500) :
    determineFakeStatus o s maxFreq cutoffFreq =
      (true, Details.codecSignature e.2 maxFreq) := by
  unfold determineFakeStatus
  rw [signatureLoop_entries_some o maxFreq e he hn]

theorem determineFakeStatus_of_no_match (o : IterOrder) (s : SpectrumAnalyzer)
    (maxFreq cutoffFreq : ℚ) (h : ∀ e ∈ commonCutoffs, ¬ |maxFreq - e.1| < 500) :
    determineFakeStatus o s maxFreq cutoffFreq =
      if maxFreq < 18000 then (true, Details.tooLow maxFreq)
      else if cutoffFreq < (s.sampleRate : ℚ) / 2 * 0.9 then
        (true, Details.cutoffDetected cutoffFreq)
      else (false, Details.normal maxFreq) := by
  unfold determineFakeStatus
  rw [signatureLoop_entries_none o maxFreq h]

/-- The verdict does not depend on the order in which the map is visited. -/
theorem determineFakeStatus_order (o o' : IterOrder) (s : SpectrumAnalyzer)
    (maxFreq cutoffFreq : ℚ) :
    determineFakeStatus o' s maxFreq cutoffFreq = determineFakeStatus o s maxFreq cutoffFreq := by
  by_cases h : ∀ e ∈ commonCutoffs, ¬ |maxFreq - e.1| < 500
  · rw [determineFakeStatus_of_no_match o s _ _ h, determineFakeStatus_of_no_match o' s _ _ h]
  · push_neg at h
    obtain ⟨e, he, hn⟩ := h
    rw [determineFakeStatus_of_match o s _ _ e he hn,
      determineFakeStatus_of_match o' s _ _ e he hn]

/-- Outside the bands around the five signatures nothing matches: below 15500 Hz,
between 17500 and 18500 Hz, and from 21500 Hz on. -/
theorem no_match_of_outside (maxFreq : ℚ)
    (h : maxFreq ≤ 15500 ∨ (17500 ≤ maxFreq ∧ maxFreq ≤ 18500) ∨ 21500 ≤ maxFreq) :
    ∀ e ∈ commonCutoffs, ¬ |maxFreq - e.1| < 500 := by
  intro e he hn
  rw [abs_lt] at hn
  simp only [commonCutoffs, List.mem_cons, List.mem_singleton, List.not_mem_nil,
    or_false] at he
  rcases he with h' | h' | h' | h' | h' <;> subst h' <;> simp only at hn <;>
    rcases h with h | ⟨h, h2⟩ | h <;> linarith

theorem zero_no_match : ∀ e ∈ commonCutoffs, ¬ |(0 : ℚ) - e.1| < 500 :=
  no_match_of_outside 0 (Or.inl (by norm_num))

/-! ## Noise floor, effective frequency and cutoff -/

theorem noiseFloor_fold (P : List ℚ) : ∀ (k start : Nat) (acc : ℚ × Nat),
    start + k ≤ P.length →
    (List.range' start k).foldl
        (fun (a : ℚ × Nat) i => (a.1 + P.getD i 0, a.2 + 1)) acc =
      (acc.1 + ((P.drop start).take k).sum, acc.2 + k) := by
  intro k
  induction k with
  | zero => intro start acc _; simp
  | succ k ih =>
    intro start acc h
    have hlt : start < P.length := by omega
    rw [List.range'_succ, List.foldl_cons, ih (start + 1) _ (by omega),
      List.drop_eq_getElem_cons hlt, List.take_succ_cons, List.sum_cons,
      List.getD_eq_getElem P 0 hlt]
    simp only [Prod.mk.injEq]
    constructor
    · ring
    · omega

/-- The noise floor is the arithmetic mean of the bins from `9 L / 10` on. -/
theorem calculateNoiseFloor_eq_mean (P : List ℚ) (hne : P ≠ []) :
    P.length * 9 / 10 < P.length ∧
    calculateNoiseFloor P =
      (P.drop (P.length * 9 / 10)).sum / ((P.length - P.length * 9 / 10 : Nat) : ℚ) := by
  have hpos : 0 < P.length := List.length_pos.2 hne
  have hlt : P.length * 9 / 10 < P.length := by omega
  refine ⟨hlt, ?_⟩
  unfold calculateNoiseFloor
  simp only
  rw [noiseFloor_fold P _ _ (0, 0) (by omega)]
  have htake : (P.drop (P.length * 9 / 10)).take (P.length - P.length * 9 / 10) =
      P.drop (P.length * 9 / 10) := by
    apply List.take_of_length_le
    rw [List.length_drop]
  rw [htake]
  simp only [zero_add]
  rw [if_neg (by omega)]

theorem findMaxLoop_none (P : List ℚ) (t r : ℚ) : ∀ k : Nat,
    (∀ i < k, ¬ P.getD i 0 > t) → findMaxLoop P t r k = 0 := by
  intro k
  induction k with
  | zero => intro _; rfl
  | succ k ih =>
    intro h
    simp only [findMaxLoop, if_neg (h k (Nat.lt_succ_self k))]
    exact ih fun i hi => h i (Nat.lt_succ_of_lt hi)

theorem cutoffLoop_no_low (P : List ℚ) (t r : ℚ) : ∀ (k c : Nat),
    (∀ i < k, ¬ P.getD i 0 < t) → cutoffLoop P t r k c = (P.length : ℚ) * r := by
  intro k
  induction k with
  | zero => intro c _; rfl
  | succ k ih =>
    intro c h
    simp only [cutoffLoop, if_neg (h k (Nat.lt_succ_self k))]
    exact ih 0 fun i hi => h i (Nat.lt_succ_of_lt hi)

/-- Invariant of the downward scan of `detectFrequencyCutoff`: with `c < 10` low bins
counted directly above bin `k` and no run of ten starting at `k` or higher, the
scan returns the edge above the highest run of ten, or the full extent when there
is no run. -/
theorem cutoffLoop_spec (P : List ℚ) (t r : ℚ) : ∀ (k c : Nat),
    c < 10 → k + c ≤ P.length → (∀ j < c, P.getD (k + j) 0 < t) →
    (k + c = P.length ∨ ¬ P.getD (k + c) 0 < t) → (∀ i, k ≤ i → ¬ LowRun P t i) →
    (∃ i, LowRun P t i ∧ (∀ i', LowRun P t i' → i' ≤ i) ∧
        (i + 10 = P.length ∨ ¬ P.getD (i + 10) 0 < t) ∧
        cutoffLoop P t r k c = ((i + 10 : Nat) : ℚ) * r) ∨
      ((∀ i, ¬ LowRun P t i) ∧ cutoffLoop P t r k c = (P.length : ℚ) * r) := by
  intro k
  induction k with
  | zero =>
    intro c _ _ _ _ hno
    exact Or.inr ⟨fun i => hno i (Nat.zero_le i), rfl⟩
  | succ k ih =>
    intro c hc hlen hlow hedge hno
    by_cases hk : P.getD k 0 < t
    · have hlow' : ∀ j < c + 1, P.getD (k + j) 0 < t := by
        intro j hj
        rcases Nat.eq_zero_or_pos j with h0 | hpos
        · subst h0; simpa using hk
        · have := hlow (j - 1) (by omega)
          have hidx : k + 1 + (j - 1) = k + j := by omega
          rwa [hidx] at this
      have hedge' : k + (c + 1) = P.length ∨ ¬ P.getD (k + (c + 1)) 0 < t := by
        have hidx : k + (c + 1) = k + 1 + c := by omega
        rw [hidx]; exact hedge
      by_cases h10 : c + 1 ≥ 10
      · have hc9 : c = 9 := by omega
        subst hc9
        left
        refine ⟨k, ⟨by omega, hlow'⟩, ?_, hedge', ?_⟩
        · intro i' hi'
          by_contra hgt
          exact hno i' (by omega) hi'
        · simp only [cutoffLoop, if_pos hk, if_pos h10]
      · have hstep : cutoffLoop P t r (k + 1) c = cutoffLoop P t r k (c + 1) := by
          simp only [cutoffLoop, if_pos hk, if_neg h10]
        rw [hstep]
        refine ih (c + 1) (by omega) (by omega) hlow' hedge' ?_
        intro i hi hrun
        rcases Nat.eq_or_lt_of_le hi with heq | hlt
        · subst heq
          rcases hedge' with he | he
          · have := hrun.1; omega
          · exact he (hrun.2 (c + 1) (by omega))
        · exact hno i (by omega) hrun
    · have hstep : cutoffLoop P t r (k + 1) c = cutoffLoop P t r k 0 := by
        simp only [cutoffLoop, if_neg hk]
      rw [hstep]
      refine ih 0 (by omega) (by omega) (fun j hj => absurd hj (Nat.not_lt_zero j))
        (Or.inr (by simpa using hk)) ?_
      intro i hi hrun
      rcases Nat.eq_or_lt_of_le hi with heq | hlt
      · subst heq
        exact hk (by simpa using hrun.2 0 (by omega))
      · exact hno i (by omega) hrun

theorem detectFrequencyCutoff_spec (P : List ℚ) (r : ℚ) :
    (∃ i, LowRun P (maxPower P * 0.01) i ∧ (∀ i', LowRun P (maxPower P * 0.01) i' → i' ≤ i) ∧
        (i + 10 = P.length ∨ ¬ P.getD (i + 10) 0 < maxPower P * 0.01) ∧
        detectFrequencyCutoff P r = ((i + 10 : Nat) : ℚ) * r) ∨
      ((∀ i, ¬ LowRun P (maxPower P * 0.01) i) ∧
        detectFrequencyCutoff P r = (P.length : ℚ) * r) := by
  unfold detectFrequencyCutoff
  refine cutoffLoop_spec P _ r P.length 0 (by omega) (by omega)
    (fun j hj => absurd hj (Nat.not_lt_zero j)) (Or.inl rfl) ?_
  intro i hi hrun
  have := hrun.1
  omega

theorem maxPower_fold_ge : ∀ (l : List ℚ) (m : ℚ),
    m ≤ l.foldl (fun m power => if power > m then power else m) m ∧
      ∀ p ∈ l, p ≤ l.foldl (fun m power => if power > m then power else m) m := by
  intro l
  induction l with
  | nil => intro m; exact ⟨le_refl m, fun p hp => by cases hp⟩
  | cons x rest ih =>
    intro m
    rw [List.foldl_cons]
    obtain ⟨h1, h2⟩ := ih (if x > m then x else m)
    have hm : m ≤ if x > m then x else m := by
      split_ifs with h
      · exact le_of_lt h
      · exact le_refl m
    have hx : x ≤ if x > m then x else m := by
      split_ifs with h
      · exact le_refl x
      · exact not_lt.1 h
    refine ⟨le_trans hm h1, ?_⟩
    intro p hp
    rcases List.mem_cons.1 hp with h | h
    · subst h; exact le_trans hx h1
    · exact h2 p h

theorem maxPower_fold_mem : ∀ (l : List ℚ) (m : ℚ),
    l.foldl (fun m power => if power > m then power else m) m = m ∨
      l.foldl (fun m power => if power > m then power else m) m ∈ l := by
  intro l
  induction l with
  | nil => intro m; exact Or.inl rfl
  | cons x rest ih =>
    intro m
    rw [List.foldl_cons]
    rcases ih (if x > m then x else m) with h | h
    · rw [h]
      split_ifs with hx
      · exact Or.inr (List.mem_cons_self _ _)
      · exact Or.inl rfl
    · exact Or.inr (List.mem_cons_of_mem _ h)

/-- The running maximum of `detectFrequencyCutoff` is an upper bound of the bins,
and on a non-empty spectrum of non-negative powers it is one of the bins. -/
theorem maxPower_spec (P : List ℚ) :
    0 ≤ maxPower P ∧ (∀ p ∈ P, p ≤ maxPower P) ∧
      (P ≠ [] → (∀ p ∈ P, 0 ≤ p) → maxPower P ∈ P) := by
  obtain ⟨h1, h2⟩ := maxPower_fold_ge P 0
  refine ⟨h1, h2, ?_⟩
  intro hne hnonneg
  rcases maxPower_fold_mem P 0 with h | h
  · obtain ⟨x, hx⟩ := List.exists_mem_of_ne_nil P hne
    have hx0 : x = 0 := le_antisymm (by have := h2 x hx; rw [h] at this; exact this)
      (hnonneg x hx)
    unfold maxPower
    rw [h, ← hx0]
    exact hx
  · exact h

theorem getD_replicate_lt (L i : Nat) (p : ℚ) (h : i < L) :
    (List.replicate L p).getD i 0 = p := by
  rw [List.getD_eq_getElem _ 0 (by simpa using h)]
  simp

theorem maxPower_replicate (L : Nat) (p : ℚ) (hL : 1 ≤ L) (hp : 0 ≤ p) :
    maxPower (List.replicate L p) = p := by
  obtain ⟨_, _, h3⟩ := maxPower_spec (List.replicate L p)
  have hne : List.replicate L p ≠ [] := by
    intro h
    have := congrArg List.length h
    simp at this
    omega
  exact List.eq_of_mem_replicate (h3 hne fun q hq => by rw [List.eq_of_mem_replicate hq]; exact hp)

theorem calculateNoiseFloor_replicate (L : Nat) (p : ℚ) (hL : 1 ≤ L) :
    calculateNoiseFloor (List.replicate L p) = p := by
  have hne : List.replicate L p ≠ [] := by
    intro h
    have := congrArg List.length h
    simp at this
    omega
  obtain ⟨hlt, hmean⟩ := calculateNoiseFloor_eq_mean (List.replicate L p) hne
  rw [hmean]
  simp only [List.length_replicate] at hlt ⊢
  rw [List.drop_replicate, List.sum_replicate, nsmul_eq_mul]
  have hc : ((L - L * 9 / 10 : Nat) : ℚ) ≠ 0 := by
    have : L - L * 9 / 10 ≠ 0 := by omega
    exact_mod_cast this
  field_simp

/-- On a spectrum whose bins all carry the same non-negative power no bin exceeds
ten times the noise floor and no bin is below 1% of the maximum: the effective
frequency is 0, the cutoff is the full extent, and rule 2 classifies it as fake. -/
theorem analyzeFrequencyContent_flat (o : IterOrder) (s : SpectrumAnalyzer)
    (L : Nat) (p : ℚ) (hL : 1 ≤ L) (hp : 0 ≤ p) :
    analyzeFrequencyContent o s (List.replicate L p) =
      { MaxFrequency := 0
        CutoffFrequency := (L : ℚ) * ((s.sampleRate : ℚ) / ((L * 2 : Nat) : ℚ))
        IsFake := true
        Details := Details.tooLow 0
        PowerSpectrum := List.replicate L p } := by
  have hmax : ∀ r, findMaxEffectiveFrequency (List.replicate L p) r = 0 := by
    intro r
    unfold findMaxEffectiveFrequency
    simp only
    apply findMaxLoop_none
    intro i hi
    rw [List.length_replicate] at hi
    rw [getD_replicate_lt L i p hi, calculateNoiseFloor_replicate L p hL]
    intro hgt
    linarith
  have hcut : ∀ r, detectFrequencyCutoff (List.replicate L p) r = (L : ℚ) * r := by
    intro r
    unfold detectFrequencyCutoff
    simp only
    rw [cutoffLoop_no_low, List.length_replicate]
    intro i hi
    rw [List.length_replicate] at hi
    rw [getD_replicate_lt L i p hi, maxPower_replicate L p hL hp]
    intro hlt
    norm_num at hlt
    linarith
  unfold analyzeFrequencyContent
  simp only [List.length_replicate, hmax, hcut]
  rw [determineFakeStatus_of_no_match o s 0 _ zero_no_match, if_pos (by norm_num)]

theorem findMaxLoop_spec (P : List ℚ) (t r : ℚ) : ∀ k : Nat,
    (∃ j, j < k ∧ P.getD j 0 > t ∧ (∀ i, i < k → P.getD i 0 > t → i ≤ j) ∧
        findMaxLoop P t r k = (j : ℚ) * r) ∨
      ((∀ i < k, ¬ P.getD i 0 > t) ∧ findMaxLoop P t r k = 0) := by
  intro k
  induction k with
  | zero => exact Or.inr ⟨fun i hi => absurd hi (Nat.not_lt_zero i), rfl⟩
  | succ k ih =>
    by_cases hk : P.getD k 0 > t
    · left
      refine ⟨k, Nat.lt_succ_self k, hk, fun i hi _ => by omega, ?_⟩
      simp only [findMaxLoop, if_pos hk]
    · have hstep : findMaxLoop P t r (k + 1) = findMaxLoop P t r k := by
        simp only [findMaxLoop, if_neg hk]
      rw [hstep]
      rcases ih with ⟨j, hj, hgt, hmax, hres⟩ | ⟨hno, hres⟩
      · left
        refine ⟨j, by omega, hgt, ?_, hres⟩
        intro i hi hig
        rcases Nat.eq_or_lt_of_le (Nat.le_of_lt_succ hi) with heq | hlt
        · subst heq; exact absurd hig hk
        · exact hmax i hlt hig
      · right
        refine ⟨?_, hres⟩
        intro i hi
        rcases Nat.eq_or_lt_of_le (Nat.le_of_lt_succ hi) with heq | hlt
        · subst heq; exact hk
        · exact hno i hlt

/-! ## The estimator on silence -/

theorem sliceRange_mem {α : Type} (xs ys : List α) (lo hi : Int)
    (h : sliceRange xs lo hi = some ys) : ∀ y ∈ ys, y ∈ xs := by
  unfold sliceRange at h
  split_ifs at h
  cases h
  intro y hy
  exact List.mem_of_mem_drop (List.mem_of_mem_take hy)

theorem applyHammingWindow_zeros {C : Type} (E : Extern C) (k : Nat) :
    applyHammingWindow E (List.replicate k 0) = List.replicate k 0 := by
  rw [List.eq_replicate_iff]
  refine ⟨by rw [applyHammingWindow_length, List.length_replicate], ?_⟩
  intro b hb
  unfold applyHammingWindow at hb
  simp only [List.mem_map] at hb
  obtain ⟨q, hq, rfl⟩ := hb
  have hq0 : q.2 = 0 := List.eq_of_mem_replicate (List.snd_mem_of_mem_enum hq)
  rw [hq0, zero_mul]

theorem calculatePowerSpectrum_zeros {C : Type} (E : Extern C) (spectrum : List C)
    (h : ∀ c ∈ spectrum, E.cabs c = 0) :
    calculatePowerSpectrum E spectrum = List.replicate (spectrum.length / 2) 0 := by
  rw [List.eq_replicate_iff]
  refine ⟨calculatePowerSpectrum_length E spectrum, ?_⟩
  intro b hb
  unfold calculatePowerSpectrum at hb
  simp only [List.mem_map] at hb
  obtain ⟨c, hc, rfl⟩ := hb
  rw [h c (List.mem_of_mem_take hc), zero_mul]

/-- A fresh analyzer on `n ≥ 1` zero-valued samples: no error, and the classifier
receives the all-zero spectrum of `min n 8192 / 2` bins. -/
theorem AnalyzeSpectrum_zeros {C : Type} (E : Extern C)
    (hfft : ∀ xs, (E.FFTReal xs).length = xs.length)
    (hzero : ∀ k, ∀ c ∈ E.FFTReal (List.replicate k 0), E.cabs c = 0)
    (o : IterOrder) (sampleRate : Int) (n : Nat) (hn : 1 ≤ n) :
    AnalyzeSpectrum E o (NewSpectrumAnalyzer sampleRate) (List.replicate n 0) =
      (adjustWindowSize (NewSpectrumAnalyzer sampleRate) (n : Int),
        GoResult.ok (analyzeFrequencyContent o
          (adjustWindowSize (NewSpectrumAnalyzer sampleRate) (n : Int))
          (List.replicate (min n 8192 / 2) 0))) := by
  have hlen : (List.replicate n (0 : ℚ)).length = n := List.length_replicate _ _
  have hpos : (0 : Int) < (NewSpectrumAnalyzer sampleRate).windowSize := by
    simp [NewSpectrumAnalyzer]
  obtain ⟨window, hwin, hwlen⟩ :=
    extractWindow_some (adjustWindowSize (NewSpectrumAnalyzer sampleRate)
      ((List.replicate n (0 : ℚ)).length : Int)) (List.replicate n 0)
      (adjustWindowSize_pos _ _ hpos)
  rw [adjustWindowSize_min] at hwlen
  have hw : window.length = min n 8192 := by
    simp only [NewSpectrumAnalyzer, hlen] at hwlen
    omega
  have hwz : window = List.replicate (min n 8192) 0 := by
    rw [List.eq_replicate_iff]
    refine ⟨hw, fun b hb => ?_⟩
    unfold extractWindow at hwin
    exact List.eq_of_mem_replicate (sliceRange_mem _ _ _ _ hwin b hb)
  rw [AnalyzeSpectrum_eq E o _ _ window (by rw [hlen]; omega) hwin, hlen, hwz,
    applyHammingWindow_zeros, calculatePowerSpectrum_zeros E _ (hzero _), hfft,
    List.length_replicate]

/-! ## The per-file analysis -/

theorem analyzeFrequencyContent_order (o o' : IterOrder) (s : SpectrumAnalyzer) (P : List ℚ) :
    analyzeFrequencyContent o' s P = analyzeFrequencyContent o s P := by
  unfold analyzeFrequencyContent
  simp only [determineFakeStatus_order o o']

theorem AnalyzeSpectrum_order {C : Type} (E : Extern C) (o o' : IterOrder)
    (s : SpectrumAnalyzer) (samples : List ℚ) :
    AnalyzeSpectrum E o' s samples = AnalyzeSpectrum E o s samples := by
  unfold AnalyzeSpectrum
  simp only [analyzeFrequencyContent_order o o']

/-- The result of `analyzeFile` does not depend on the order in which the classifier
visits its map. -/
theorem analyzeFile_order {C : Type} (E : Extern C) (o o' : IterOrder) (a : Analyzer)
    (filePath : String) : analyzeFile E o' a filePath = analyzeFile E o a filePath := by
  unfold analyzeFile
  simp only [AnalyzeSpectrum_order E o o']

/-- The result of `analyzeFile` on a path depends on the analyzer only through the
configured threshold and the decoding of that path. -/
theorem analyzeFile_congr {C : Type} (E : Extern C) (o : IterOrder) (a a' : Analyzer)
    (filePath : String) (hc : a'.config = a.config)
    (hd : a'.DecodeFile filePath = a.DecodeFile filePath) :
    analyzeFile E o a' filePath = analyzeFile E o a filePath := by
  unfold analyzeFile
  simp only [hc, hd]

/-- A fresh analyzer never panics: on an empty buffer it returns the empty-input
error, on any other a result. -/
theorem AnalyzeSpectrum_fresh {C : Type} (E : Extern C) (o : IterOrder) (sampleRate : Int)
    (samples : List ℚ) :
    (samples = [] ∧ (AnalyzeSpectrum E o (NewSpectrumAnalyzer sampleRate) samples).2 =
        GoResult.err "音频采样数据为空") ∨
      (samples ≠ [] ∧ ∃ r,
        (AnalyzeSpectrum E o (NewSpectrumAnalyzer sampleRate) samples).2 = GoResult.ok r) := by
  by_cases hnil : samples = []
  · left
    subst hnil
    exact ⟨rfl, by rw [AnalyzeSpectrum_empty]⟩
  · right
    have hlen : samples.length ≠ 0 := fun h => hnil (List.length_eq_zero.1 h)
    have hpos : (0 : Int) < (NewSpectrumAnalyzer sampleRate).windowSize := by
      simp [NewSpectrumAnalyzer]
    obtain ⟨window, hwin, _⟩ :=
      extractWindow_some (adjustWindowSize (NewSpectrumAnalyzer sampleRate)
        (samples.length : Int)) samples (adjustWindowSize_pos _ _ hpos)
    exact ⟨hnil, _, by rw [AnalyzeSpectrum_eq E o _ samples window hlen hwin]⟩

theorem prefixed_ne_empty (pre err : String) (h : 0 < pre.length) : pre ++ err ≠ "" := by
  intro heq
  have hlen := congrArg String.length heq
  rw [String.length_append] at hlen
  have h0 : ("" : String).length = 0 := rfl
  omega

theorem fillAnalysis_FilePath (config : AnalyzerConfig) (audioFile : AudioFile)
    (result : AnalysisResult) (sr : SpectrumResult) :
    (fillAnalysis config audioFile result sr).FilePath = result.FilePath ∧
      (fillAnalysis config audioFile result sr).Error = result.Error := ⟨rfl, rfl⟩

theorem fillAnalysis_Status (config : AnalyzerConfig) (audioFile : AudioFile)
    (result : AnalysisResult) (sr : SpectrumResult) :
    ((fillAnalysis config audioFile result sr).Analysis.IsFake = true ∧
        (fillAnalysis config audioFile result sr).Status = "FAKE") ∨
      ((fillAnalysis config audioFile result sr).Analysis.IsFake = false ∧
        (fillAnalysis config audioFile result sr).Status = "OK") := by
  unfold fillAnalysis
  simp only
  split_ifs <;> simp_all

theorem fillAnalysis_IsFake (config : AnalyzerConfig) (audioFile : AudioFile)
    (result : AnalysisResult) (sr : SpectrumResult) :
    (fillAnalysis config audioFile result sr).Analysis.IsFake =
      (sr.IsFake || decide (sr.MaxFrequency < config.CutoffFreq)) := by
  unfold fillAnalysis
  by_cases h : sr.MaxFrequency < config.CutoffFreq <;> simp [h]

theorem fillAnalysis_Details (config : AnalyzerConfig) (audioFile : AudioFile)
    (result : AnalysisResult) (sr : SpectrumResult) :
    (fillAnalysis config audioFile result sr).Analysis.Details =
      if sr.MaxFrequency < config.CutoffFreq ∧ sr.IsFake = false then
        Explanation.belowThreshold sr.MaxFrequency config.CutoffFreq
      else Explanation.spectrum sr.Details := by
  unfold fillAnalysis
  by_cases h : sr.MaxFrequency < config.CutoffFreq <;> cases hf : sr.IsFake <;> simp [h, hf]

/-- The shape of the result of `analyzeFile` in each of its four exits. -/
theorem analyzeFile_cases {C : Type} (E : Extern C) (o : IterOrder) (a : Analyzer)
    (filePath : String) :
    ∃ r, analyzeFile E o a filePath = some r ∧ r.FilePath = filePath ∧
      ((analysisFails a filePath = true ∧ r.Status = "ERROR" ∧ r.Error ≠ "") ∨
        (analysisFails a filePath = false ∧ (r.Status = "OK" ∨ r.Status = "FAKE") ∧
          r.Error = "")) := by
  unfold analyzeFile analysisFails
  cases hd : a.DecodeFile filePath with
  | error err =>
    exact ⟨_, rfl, rfl, Or.inl ⟨rfl, rfl, prefixed_ne_empty _ _ (by decide)⟩⟩
  | ok audioFile =>
    simp only
    cases hs : audioFile.samples with
    | error err =>
      exact ⟨_, rfl, rfl, Or.inl ⟨rfl, rfl, prefixed_ne_empty _ _ (by decide)⟩⟩
    | ok samples =>
      simp only
      rcases AnalyzeSpectrum_fresh E o audioFile.sampleRate samples with ⟨hnil, h⟩ | ⟨hne, r, h⟩
      · rw [h]
        exact ⟨_, rfl, rfl, Or.inl ⟨by simp [hnil], rfl, prefixed_ne_empty _ _ (by decide)⟩⟩
      · rw [h]
        refine ⟨_, rfl, (fillAnalysis_FilePath _ _ _ _).1, Or.inr ⟨?_, ?_,
          (fillAnalysis_FilePath _ _ _ _).2⟩⟩
        · cases samples with
          | nil => exact absurd rfl hne
          | cons x xs => rfl
        · rcases fillAnalysis_Status a.config audioFile
            { FilePath := filePath, Format := audioFile.format, Metadata := audioFile.metadata,
              Status := "ERROR", Analysis := AnalysisDetails.zero, Error := "" } r with h1 | h1
          · exact Or.inr h1.2
          · exact Or.inl h1.2

/-! ## The worker pool: inversion of the steps -/

theorem getElem?_split {α : Type} : ∀ (ws : List α) (i : Nat) (w : α),
    ws[i]? = some w →
    ∃ l1 l2, ws = l1 ++ w :: l2 ∧ ∀ w', ws.set i w' = l1 ++ w' :: l2 := by
  intro ws
  induction ws with
  | nil => intro i w h; simp at h
  | cons x xs ih =>
    intro i w h
    cases i with
    | zero =>
      simp only [List.getElem?_cons_zero, Option.some.injEq] at h
      subst h
      exact ⟨[], xs, rfl, fun w' => rfl⟩
    | succ i =>
      simp only [List.getElem?_cons_succ] at h
      obtain ⟨l1, l2, hxs, hset⟩ := ih i w h
      refine ⟨x :: l1, l2, by rw [hxs]; rfl, fun w' => ?_⟩
      rw [List.set_cons_succ, hset w']
      rfl

theorem step_send {C : Type} (E : Extern C) (a : Analyzer) (capacity : Nat)
    (s s' : PoolState) (h : step E a capacity Action.send s = some s') :
    ∃ filePath rest, s.pending = filePath :: rest ∧ s.jobs.length < capacity ∧
      s.jobsClosed = false ∧ s' = { s with pending := rest, jobs := s.jobs ++ [filePath] } := by
  simp only [step] at h
  split at h
  · cases h
  · rename_i filePath rest hp
    split_ifs at h with hg
    cases h
    exact ⟨filePath, rest, hp, hg.1, hg.2, rfl⟩

theorem step_closeJobs {C : Type} (E : Extern C) (a : Analyzer) (capacity : Nat)
    (s s' : PoolState) (h : step E a capacity Action.closeJobs s = some s') :
    s.pending = [] ∧ s.jobsClosed = false ∧ s' = { s with jobsClosed := true } := by
  simp only [step] at h
  split_ifs at h with hg
  cases h
  exact ⟨hg.1, hg.2, rfl⟩

theorem step_receive {C : Type} (E : Extern C) (a : Analyzer) (capacity : Nat)
    (i : Nat) (o : IterOrder) (s s' : PoolState)
    (h : step E a capacity (Action.receive i o) s = some s') :
    ∃ l1 l2 filePath rest result, s.workers = l1 ++ Worker.idle :: l2 ∧
      s.jobs = filePath :: rest ∧ analyzeFile E o a filePath = some result ∧
      s' = { s with jobs := rest, workers := l1 ++ Worker.holding result :: l2 } := by
  simp only [step] at h
  split at h
  · rename_i filePath rest hw hj
    split at h
    · rename_i result hr
      cases h
      obtain ⟨l1, l2, hws, hset⟩ := getElem?_split s.workers i Worker.idle hw
      exact ⟨l1, l2, filePath, rest, result, hws, hj, hr, by rw [hset]⟩
    · cases h
  · cases h

theorem step_leave {C : Type} (E : Extern C) (a : Analyzer) (capacity : Nat)
    (i : Nat) (s s' : PoolState) (h : step E a capacity (Action.leave i) s = some s') :
    ∃ l1 l2, s.workers = l1 ++ Worker.idle :: l2 ∧ s.jobs = [] ∧ s.jobsClosed = true ∧
      s' = { s with workers := l1 ++ Worker.done :: l2 } := by
  simp only [step] at h
  split at h
  · rename_i hw
    split_ifs at h with hg
    cases h
    obtain ⟨l1, l2, hws, hset⟩ := getElem?_split s.workers i Worker.idle hw
    exact ⟨l1, l2, hws, hg.1, hg.2, by rw [hset]⟩
  · cases h

theorem step_emit {C : Type} (E : Extern C) (a : Analyzer) (capacity : Nat)
    (i : Nat) (s s' : PoolState) (h : step E a capacity (Action.emit i) s = some s') :
    ∃ l1 l2 result, s.workers = l1 ++ Worker.holding result :: l2 ∧
      s.results.length < capacity ∧ s.resultsClosed = false ∧
      s' = { s with results := s.results ++ [result], workers := l1 ++ Worker.idle :: l2 } := by
  simp only [step] at h
  split at h
  · rename_i result hw
    split_ifs at h with hg
    cases h
    obtain ⟨l1, l2, hws, hset⟩ := getElem?_split s.workers i (Worker.holding result) hw
    exact ⟨l1, l2, result, hws, hg.1, hg.2, by rw [hset]⟩
  · cases h

theorem step_closeResults {C : Type} (E : Extern C) (a : Analyzer) (capacity : Nat)
    (s s' : PoolState) (h : step E a capacity Action.closeResults s = some s') :
    (∀ w ∈ s.workers, w = Worker.done) ∧ s.resultsClosed = false ∧
      s' = { s with resultsClosed := true } := by
  simp only [step] at h
  split_ifs at h with hg
  cases h
  exact ⟨hg.1, hg.2, rfl⟩

theorem step_collect {C : Type} (E : Extern C) (a : Analyzer) (capacity : Nat)
    (s s' : PoolState) (h : step E a capacity Action.collect s = some s') :
    ∃ result rest, s.returned = false ∧ s.results = result :: rest ∧
      s' = { s with results := rest, allResults := s.allResults ++ [result] } := by
  simp only [step] at h
  split_ifs at h with hg
  split at h
  · rename_i result rest hr
    cases h
    exact ⟨result, rest, hg, hr, rfl⟩
  · cases h

theorem step_finish {C : Type} (E : Extern C) (a : Analyzer) (capacity : Nat)
    (s s' : PoolState) (h : step E a capacity Action.finish s = some s') :
    s.returned = false ∧ s.results = [] ∧ s.resultsClosed = true ∧
      s' = { s with returned := true } := by
  simp only [step] at h
  split_ifs at h with hg
  cases h
  exact ⟨hg.1, hg.2.1, hg.2.2, rfl⟩

/-- Every step lowers the number of steps left by one. -/
theorem step_stepsLeft {C : Type} (E : Extern C) (a : Analyzer) (capacity : Nat)
    (act : Action) (s s' : PoolState) (h : step E a capacity act s = some s') :
    s'.stepsLeft + 1 = s.stepsLeft := by
  cases act with
  | send =>
    obtain ⟨filePath, rest, hp, _, hc, rfl⟩ := step_send E a capacity s s' h
    simp only [PoolState.stepsLeft, hp, List.length_cons, List.length_append,
      List.length_singleton, List.length_nil]
    split_ifs <;> omega
  | closeJobs =>
    obtain ⟨_, hc, rfl⟩ := step_closeJobs E a capacity s s' h
    simp only [PoolState.stepsLeft, hc, reduceIte, Bool.false_eq_true]
    split_ifs <;> omega
  | receive i o =>
    obtain ⟨l1, l2, filePath, rest, result, hw, hj, _, rfl⟩ :=
      step_receive E a capacity i o s s' h
    simp only [PoolState.stepsLeft, hw, hj, List.length_cons, List.map_append, List.map_cons,
      List.sum_append, List.sum_cons, Worker.weight]
    split_ifs <;> omega
  | leave i =>
    obtain ⟨l1, l2, hw, _, _, rfl⟩ := step_leave E a capacity i s s' h
    simp only [PoolState.stepsLeft, hw, List.map_append, List.map_cons,
      List.sum_append, List.sum_cons, Worker.weight]
    split_ifs <;> omega
  | emit i =>
    obtain ⟨l1, l2, result, hw, _, _, rfl⟩ := step_emit E a capacity i s s' h
    simp only [PoolState.stepsLeft, hw, List.length_append, List.length_singleton,
      List.length_cons, List.length_nil,
      List.map_append, List.map_cons, List.sum_append, List.sum_cons, Worker.weight]
    split_ifs <;> omega
  | closeResults =>
    obtain ⟨_, hc, rfl⟩ := step_closeResults E a capacity s s' h
    simp only [PoolState.stepsLeft, hc, reduceIte, Bool.false_eq_true]
    split_ifs <;> omega
  | collect =>
    obtain ⟨result, rest, _, hr, rfl⟩ := step_collect E a capacity s s' h
    simp only [PoolState.stepsLeft, hr, List.length_cons]
    split_ifs <;> omega
  | finish =>
    obtain ⟨hc, _, _, rfl⟩ := step_finish E a capacity s s' h
    simp only [PoolState.stepsLeft, hc, reduceIte, Bool.false_eq_true]

/-! ## The worker pool: invariant -/

theorem heldResults_append : ∀ (l1 l2 : List Worker),
    heldResults (l1 ++ l2) = heldResults l1 ++ heldResults l2 := by
  intro l1
  induction l1 with
  | nil => intro l2; rfl
  | cons w rest ih =>
    intro l2
    cases w with
    | idle => simpa [heldResults] using ih l2
    | holding result => simpa [heldResults] using ih l2
    | done => simpa [heldResults] using ih l2

theorem heldResults_replicate_idle (n : Nat) :
    heldResults (List.replicate n Worker.idle) = [] := by
  induction n with
  | zero => rfl
  | succ n ih => simpa [List.replicate_succ, heldResults] using ih

theorem heldResults_all_done : ∀ (ws : List Worker),
    (∀ w ∈ ws, w = Worker.done) → heldResults ws = [] := by
  intro ws
  induction ws with
  | nil => intro _; rfl
  | cons w rest ih =>
    intro h
    have hw : w = Worker.done := h w (List.mem_cons_self _ _)
    subst hw
    simpa [heldResults] using ih fun w hw => h w (List.mem_cons_of_mem _ hw)

theorem PoolInv_init {C : Type} (E : Extern C) (a : Analyzer) (filePaths : List String) :
    PoolInv E a filePaths (initState a filePaths) := by
  refine ⟨?_, ?_, ?_, ?_, ?_, ?_⟩
  · simp [initState, heldResults_replicate_idle]
  · intro h; simp [initState] at h
  · intro h
    simp only [initState] at h
    have := List.eq_of_mem_replicate h
    cases this
  · intro h; simp [initState] at h
  · simp [initState]
  · intro h; simp [initState] at h

theorem PoolInv_step_send {C : Type} (E : Extern C) (a : Analyzer) (filePaths : List String)
    (capacity : Nat) (s s' : PoolState) (hinv : PoolInv E a filePaths s)
    (h : step E a capacity Action.send s = some s') : PoolInv E a filePaths s' := by
  obtain ⟨hperm, hjc, hdone, hrc, hlen, hret⟩ := hinv
  obtain ⟨filePath, rest, hp, _, hc, rfl⟩ := step_send E a capacity s s' h
  refine ⟨?_, ?_, ?_, hrc, hlen, hret⟩
  · refine List.Perm.trans ?_ hperm
    rw [hp]
    simp only [List.map_append, List.map_cons, List.map_nil, List.cons_append,
      List.append_assoc, List.singleton_append]
    rw [List.perm_iff_count]
    intro x
    simp only [List.count_append, List.count_cons, List.count_nil]
    split_ifs <;> omega
  · intro hcl
    simp only at hcl
    rw [hc] at hcl
    cases hcl
  · intro hd
    have := (hdone hd).1
    rw [hc] at this
    cases this

theorem PoolInv_step_closeJobs {C : Type} (E : Extern C) (a : Analyzer)
    (filePaths : List String) (capacity : Nat) (s s' : PoolState)
    (hinv : PoolInv E a filePaths s)
    (h : step E a capacity Action.closeJobs s = some s') : PoolInv E a filePaths s' := by
  obtain ⟨hperm, hjc, hdone, hrc, hlen, hret⟩ := hinv
  obtain ⟨hp, hc, rfl⟩ := step_closeJobs E a capacity s s' h
  refine ⟨hperm, fun _ => hp, ?_, hrc, hlen, hret⟩
  intro hd
  have := (hdone hd).1
  rw [hc] at this
  cases this

theorem PoolInv_step_receive {C : Type} (E : Extern C) (a : Analyzer)
    (filePaths : List String) (capacity : Nat) (i : Nat) (o : IterOrder) (s s' : PoolState)
    (hinv : PoolInv E a filePaths s)
    (h : step E a capacity (Action.receive i o) s = some s') : PoolInv E a filePaths s' := by
  obtain ⟨hperm, hjc, hdone, hrc, hlen, hret⟩ := hinv
  obtain ⟨l1, l2, filePath, rest, result, hw, hj, hr, rfl⟩ :=
    step_receive E a capacity i o s s' h
  rw [analyzeFile_order E IterOrder.declared o] at hr
  refine ⟨?_, hjc, ?_, ?_, ?_, hret⟩
  · refine List.Perm.trans ?_ hperm
    rw [hw, hj]
    simp only [heldResults_append, heldResults, List.map_append, List.map_cons, List.map_nil,
      List.cons_append, List.append_assoc, List.nil_append, hr]
    rw [List.perm_iff_count]
    intro x
    simp only [List.count_append, List.count_cons, List.count_nil]
    split_ifs <;> omega
  · intro hd
    have hd' : Worker.done ∈ s.workers := by
      rw [hw]
      simp only [List.mem_append, List.mem_cons] at hd ⊢
      rcases hd with h1 | h1 | h1
      · exact Or.inl h1
      · cases h1
      · exact Or.inr (Or.inr h1)
    have := (hdone hd').2
    rw [hj] at this
    cases this
  · intro hcl
    have hidle : Worker.idle ∈ s.workers := by rw [hw]; simp
    have := hrc hcl Worker.idle hidle
    cases this
  · rw [← hlen, hw]
    simp

theorem PoolInv_step_leave {C : Type} (E : Extern C) (a : Analyzer)
    (filePaths : List String) (capacity : Nat) (i : Nat) (s s' : PoolState)
    (hinv : PoolInv E a filePaths s)
    (h : step E a capacity (Action.leave i) s = some s') : PoolInv E a filePaths s' := by
  obtain ⟨hperm, hjc, hdone, hrc, hlen, hret⟩ := hinv
  obtain ⟨l1, l2, hw, hj, hc, rfl⟩ := step_leave E a capacity i s s' h
  refine ⟨?_, hjc, fun _ => ⟨hc, hj⟩, ?_, ?_, hret⟩
  · refine List.Perm.trans ?_ hperm
    rw [hw]
    simp only [heldResults_append, heldResults]
    exact List.Perm.refl _
  · intro hcl
    have hidle : Worker.idle ∈ s.workers := by rw [hw]; simp
    have := hrc hcl Worker.idle hidle
    cases this
  · rw [← hlen, hw]
    simp

theorem PoolInv_step_emit {C : Type} (E : Extern C) (a : Analyzer)
    (filePaths : List String) (capacity : Nat) (i : Nat) (s s' : PoolState)
    (hinv : PoolInv E a filePaths s)
    (h : step E a capacity (Action.emit i) s = some s') : PoolInv E a filePaths s' := by
  obtain ⟨hperm, hjc, hdone, hrc, hlen, hret⟩ := hinv
  obtain ⟨l1, l2, result, hw, _, hc, rfl⟩ := step_emit E a capacity i s s' h
  refine ⟨?_, hjc, ?_, ?_, ?_, ?_⟩
  · refine List.Perm.trans ?_ hperm
    rw [hw]
    simp only [heldResults_append, heldResults, List.map_append, List.map_cons, List.map_nil,
      List.cons_append, List.append_assoc, List.nil_append]
    rw [List.perm_iff_count]
    intro x
    simp only [List.count_append, List.count_cons, List.count_nil]
    split_ifs <;> omega
  · intro hd
    apply hdone
    rw [hw]
    simp only [List.mem_append, List.mem_cons] at hd ⊢
    rcases hd with h1 | h1 | h1
    · exact Or.inl h1
    · cases h1
    · exact Or.inr (Or.inr h1)
  · intro hcl
    simp only at hcl
    rw [hc] at hcl
    cases hcl
  · rw [← hlen, hw]
    simp
  · intro hr
    have := (hret hr).1
    rw [hc] at this
    cases this

theorem PoolInv_step_closeResults {C : Type} (E : Extern C) (a : Analyzer)
    (filePaths : List String) (capacity : Nat) (s s' : PoolState)
    (hinv : PoolInv E a filePaths s)
    (h : step E a capacity Action.closeResults s = some s') : PoolInv E a filePaths s' := by
  obtain ⟨hperm, hjc, hdone, hrc, hlen, hret⟩ := hinv
  obtain ⟨hall, hc, rfl⟩ := step_closeResults E a capacity s s' h
  refine ⟨hperm, hjc, hdone, fun _ => hall, hlen, ?_⟩
  intro hr
  have := (hret hr).1
  rw [hc] at this
  cases this

theorem PoolInv_step_collect {C : Type} (E : Extern C) (a : Analyzer)
    (filePaths : List String) (capacity : Nat) (s s' : PoolState)
    (hinv : PoolInv E a filePaths s)
    (h : step E a capacity Action.collect s = some s') : PoolInv E a filePaths s' := by
  obtain ⟨hperm, hjc, hdone, hrc, hlen, hret⟩ := hinv
  obtain ⟨result, rest, hnr, hres, rfl⟩ := step_collect E a capacity s s' h
  refine ⟨?_, hjc, hdone, hrc, hlen, ?_⟩
  · refine List.Perm.trans ?_ hperm
    rw [hres]
    simp only [List.map_append, List.map_cons, List.map_nil,
      List.cons_append, List.append_assoc, List.nil_append]
    rw [List.perm_iff_count]
    intro x
    simp only [List.count_append, List.count_cons, List.count_nil]
    split_ifs <;> omega
  · intro hr
    simp only at hr
    rw [hnr] at hr
    cases hr

theorem PoolInv_step_finish {C : Type} (E : Extern C) (a : Analyzer)
    (filePaths : List String) (capacity : Nat) (s s' : PoolState)
    (hinv : PoolInv E a filePaths s)
    (h : step E a capacity Action.finish s = some s') : PoolInv E a filePaths s' := by
  obtain ⟨hperm, hjc, hdone, hrc, hlen, hret⟩ := hinv
  obtain ⟨_, hres, hc, rfl⟩ := step_finish E a capacity s s' h
  exact ⟨hperm, hjc, hdone, hrc, hlen, fun _ => ⟨hc, hres⟩⟩

/-- Every step keeps the invariant. -/
theorem PoolInv_step {C : Type} (E : Extern C) (a : Analyzer) (filePaths : List String)
    (capacity : Nat) (act : Action) (s s' : PoolState) (hinv : PoolInv E a filePaths s)
    (h : step E a capacity act s = some s') : PoolInv E a filePaths s' := by
  cases act with
  | send => exact PoolInv_step_send E a filePaths capacity s s' hinv h
  | closeJobs => exact PoolInv_step_closeJobs E a filePaths capacity s s' hinv h
  | receive i o => exact PoolInv_step_receive E a filePaths capacity i o s s' hinv h
  | leave i => exact PoolInv_step_leave E a filePaths capacity i s s' hinv h
  | emit i => exact PoolInv_step_emit E a filePaths capacity i s s' hinv h
  | closeResults => exact PoolInv_step_closeResults E a filePaths capacity s s' hinv h
  | collect => exact PoolInv_step_collect E a filePaths capacity s s' hinv h
  | finish => exact PoolInv_step_finish E a filePaths capacity s s' hinv h

/-- Along a schedule the invariant is kept and the steps left go down by the length
of the schedule. -/
theorem run_spec {C : Type} (E : Extern C) (a : Analyzer) (filePaths : List String)
    (capacity : Nat) : ∀ (acts : List Action) (s s' : PoolState),
    PoolInv E a filePaths s → run E a capacity acts s = some s' →
    PoolInv E a filePaths s' ∧ s'.stepsLeft + acts.length = s.stepsLeft := by
  intro acts
  induction acts with
  | nil =>
    intro s s' hinv h
    simp only [run, Option.some.injEq] at h
    subst h
    exact ⟨hinv, rfl⟩
  | cons act rest ih =>
    intro s s' hinv h
    simp only [run] at h
    split at h
    · rename_i s1 hs1
      obtain ⟨hinv', hlen⟩ := ih s1 s' (PoolInv_step E a filePaths capacity act s s1 hinv hs1) h
      have := step_stepsLeft E a capacity act s s1 hs1
      refine ⟨hinv', ?_⟩
      rw [List.length_cons]
      omega
    · cases h

/-! ## The worker pool: progress and the collected results -/

theorem perm_of_map_some {α : Type} (l1 l2 : List α)
    (h : (l1.map some).Perm (l2.map some)) : l1.Perm l2 := by
  have h' := List.Perm.filterMap id h
  simpa [List.filterMap_map] using h'

theorem workers_cases : ∀ (ws : List Worker),
    (∀ w ∈ ws, w = Worker.done) ∨ (∃ i : Nat, ws[i]? = some Worker.idle) ∨
      (∃ (i : Nat) (result : AnalysisResult), ws[i]? = some (Worker.holding result)) := by
  intro ws
  induction ws with
  | nil => exact Or.inl fun w hw => by cases hw
  | cons w rest ih =>
    cases w with
    | idle => exact Or.inr (Or.inl ⟨0, by simp⟩)
    | holding result => exact Or.inr (Or.inr ⟨0, result, by simp⟩)
    | done =>
      rcases ih with h | ⟨i, hi⟩ | ⟨i, result, hi⟩
      · left
        intro w hw
        rcases List.mem_cons.1 hw with h1 | h1
        · exact h1
        · exact h w h1
      · exact Or.inr (Or.inl ⟨i + 1, by simpa using hi⟩)
      · exact Or.inr (Or.inr ⟨i + 1, result, by simpa using hi⟩)

/-- The lengths behind the invariant: every input file is in exactly one place. -/
theorem PoolInv_length {C : Type} (E : Extern C) (a : Analyzer) (filePaths : List String)
    (s : PoolState) (hinv : PoolInv E a filePaths s) :
    s.pending.length + s.jobs.length + (heldResults s.workers).length + s.results.length +
      s.allResults.length = filePaths.length := by
  have h := hinv.1.length_eq
  simp only [List.length_append, List.length_map] at h
  omega

/-- No deadlock and no panic: in every state that satisfies the invariant and where
the main loop is not left, some goroutine can take its next step. -/
theorem PoolInv_progress {C : Type} (E : Extern C) (a : Analyzer) (filePaths : List String)
    (s : PoolState) (hinv : PoolInv E a filePaths s) (hret : s.returned = false) :
    ∃ act s', step E a filePaths.length act s = some s' := by
  have hlen := PoolInv_length E a filePaths s hinv
  obtain ⟨_, hjc, _, _, _, _⟩ := hinv
  cases hres : s.results with
  | cons result rest =>
    refine ⟨Action.collect,
      { s with results := rest, allResults := s.allResults ++ [result] }, ?_⟩
    simp only [step, hres]
    rw [if_pos hret]
  | nil =>
    cases hrc : s.resultsClosed with
    | true =>
      refine ⟨Action.finish, { s with returned := true }, ?_⟩
      simp only [step]
      rw [if_pos ⟨hret, hres, hrc⟩]
    | false =>
      cases hp : s.pending with
      | cons filePath rest =>
        have hjcl : s.jobsClosed = false := by
          cases hc : s.jobsClosed with
          | false => rfl
          | true =>
            have := hjc hc
            rw [hp] at this
            cases this
        refine ⟨Action.send, { s with pending := rest, jobs := s.jobs ++ [filePath] }, ?_⟩
        simp only [step, hp]
        rw [hp, List.length_cons] at hlen
        rw [if_pos ⟨by omega, hjcl⟩]
      | nil =>
        cases hc : s.jobsClosed with
        | false =>
          refine ⟨Action.closeJobs, { s with jobsClosed := true }, ?_⟩
          simp only [step]
          rw [if_pos ⟨hp, hc⟩]
        | true =>
          rcases workers_cases s.workers with hall | ⟨i, hi⟩ | ⟨i, result, hi⟩
          · refine ⟨Action.closeResults, { s with resultsClosed := true }, ?_⟩
            simp only [step]
            rw [if_pos ⟨hall, hrc⟩]
          · cases hj : s.jobs with
            | nil =>
              refine ⟨Action.leave i, { s with workers := s.workers.set i Worker.done }, ?_⟩
              simp only [step, hi]
              rw [if_pos ⟨hj, hc⟩]
            | cons filePath rest =>
              obtain ⟨r, hr, _⟩ := analyzeFile_cases E IterOrder.declared a filePath
              refine ⟨Action.receive i IterOrder.declared,
                { s with jobs := rest, workers := s.workers.set i (Worker.holding r) }, ?_⟩
              simp only [step, hi, hj, hr]
          · obtain ⟨l1, l2, hws, _⟩ := getElem?_split s.workers i _ hi
            have hheld : 1 ≤ (heldResults s.workers).length := by
              rw [hws]
              simp only [heldResults_append, heldResults, List.length_append, List.length_cons]
              omega
            refine ⟨Action.emit i,
              { s with results := s.results ++ [result],
                       workers := s.workers.set i Worker.idle }, ?_⟩
            simp only [step, hi]
            rw [hres, List.length_nil] at hlen
            rw [if_pos ⟨by rw [hres, List.length_nil]; omega, hrc⟩]

/-- From every state that satisfies the invariant some schedule runs to the end. -/
theorem run_complete {C : Type} (E : Extern C) (a : Analyzer) (filePaths : List String) :
    ∀ (n : Nat) (s : PoolState), PoolInv E a filePaths s → s.stepsLeft ≤ n →
    ∃ acts s', run E a filePaths.length acts s = some s' ∧ s'.returned = true := by
  intro n
  induction n with
  | zero =>
    intro s hinv hn
    cases hret : s.returned with
    | true => exact ⟨[], s, rfl, hret⟩
    | false =>
      obtain ⟨act, s1, hs1⟩ := PoolInv_progress E a filePaths s hinv hret
      have := step_stepsLeft E a filePaths.length act s s1 hs1
      omega
  | succ n ih =>
    intro s hinv hn
    cases hret : s.returned with
    | true => exact ⟨[], s, rfl, hret⟩
    | false =>
      obtain ⟨act, s1, hs1⟩ := PoolInv_progress E a filePaths s hinv hret
      have hlt := step_stepsLeft E a filePaths.length act s s1 hs1
      obtain ⟨acts, s', hrun, hfin⟩ :=
        ih s1 (PoolInv_step E a filePaths filePaths.length act s s1 hinv hs1) (by omega)
      refine ⟨act :: acts, s', ?_, hfin⟩
      simp only [run, hs1]
      exact hrun

/-- With at least one worker, `results` is closed only after every worker has left,
which a worker does only on the closed, drained `jobs`. -/
theorem PoolInv_closed {C : Type} (E : Extern C) (a : Analyzer) (filePaths : List String)
    (s : PoolState) (hinv : PoolInv E a filePaths s) (hP : 1 ≤ a.config.Concurrency)
    (hcl : s.resultsClosed = true) :
    (∀ w ∈ s.workers, w = Worker.done) ∧ s.jobsClosed = true ∧ s.jobs = [] ∧
      s.pending = [] := by
  obtain ⟨_, hjc, hdone, hrc, hlen, _⟩ := hinv
  have hall := hrc hcl
  have hpos : 0 < s.workers.length := by rw [hlen]; omega
  obtain ⟨w, hw⟩ := List.exists_mem_of_length_pos hpos
  have hd : Worker.done ∈ s.workers := by
    have := hall w hw
    rw [this] at hw
    exact hw
  exact ⟨hall, (hdone hd).1, (hdone hd).2, hjc (hdone hd).1⟩

/-- With at least one worker, when the main loop is left the collected results are
the analyses of the input files, in some order. -/
theorem PoolInv_returned {C : Type} (E : Extern C) (a : Analyzer) (filePaths : List String)
    (s : PoolState) (hinv : PoolInv E a filePaths s) (hP : 1 ≤ a.config.Concurrency)
    (hret : s.returned = true) :
    (s.allResults.map some).Perm (filePaths.map (analyzeFile E IterOrder.declared a)) := by
  have hcl := (hinv.2.2.2.2.2 hret).1
  have hres := (hinv.2.2.2.2.2 hret).2
  obtain ⟨hall, _, hj, hp⟩ := PoolInv_closed E a filePaths s hinv hP hcl
  have hperm := hinv.1
  rw [hp, hj, hres, heldResults_all_done s.workers hall] at hperm
  simpa using hperm

theorem map_analyzeFile_FilePath {C : Type} (E : Extern C) (o : IterOrder) (a : Analyzer) :
    ∀ (filePaths : List String),
    (filePaths.map (analyzeFile E o a)).map (Option.map AnalysisResult.FilePath) =
      filePaths.map some := by
  intro filePaths
  induction filePaths with
  | nil => rfl
  | cons filePath rest ih =>
    obtain ⟨r, hr, hpath, _⟩ := analyzeFile_cases E o a filePath
    simp only [List.map_cons, hr, Option.map_some', hpath, ih]

theorem initState_stepsLeft (a : Analyzer) (filePaths : List String) :
    (initState a filePaths).stepsLeft =
      4 * filePaths.length + a.config.Concurrency.toNat + 3 := by
  simp only [PoolState.stepsLeft, initState, List.map_replicate, List.sum_replicate,
    Worker.weight, List.length_nil, smul_eq_mul, Bool.false_eq_true, reduceIte]
  omega

/-- A result collected for a path that does not decode has status ERROR. -/
theorem collected_error {C : Type} (E : Extern C) (o : IterOrder) (a : Analyzer)
    (filePaths : List String) (r : AnalysisResult)
    (hr : some r ∈ filePaths.map (analyzeFile E o a))
    (hd : ∃ err, a.DecodeFile r.FilePath = Except.error err) : r.Status = "ERROR" := by
  obtain ⟨filePath, _, hfp⟩ := List.mem_map.1 hr
  obtain ⟨r', hr', hpath, hcases⟩ := analyzeFile_cases E o a filePath
  rw [hr'] at hfp
  cases hfp
  obtain ⟨err, herr⟩ := hd
  rw [hpath] at herr
  rcases hcases with ⟨_, hst, _⟩ | ⟨hf, _, _⟩
  · exact hst
  · simp [analysisFails, herr] at hf

/-! ## Claims on window selection and the estimator -/

/-- C1: on an analyzer whose window size is positive (the constructor's 8192, and
every size a call leaves behind), `AnalyzeSpectrum` returns an error exactly when
the sample sequence has length zero; on every non-empty sequence it returns a
result and no error, without a slice panic, and the window size stays positive. -/
theorem AnalyzeSpectrum_error_iff_empty {C : Type} (E : Extern C) (o : IterOrder)
    (s : SpectrumAnalyzer) (samples : List ℚ) (hs : 0 < s.windowSize) :
    ((∃ msg, (AnalyzeSpectrum E o s samples).2 = GoResult.err msg) ↔ samples.length = 0) ∧
    (samples.length ≠ 0 → ∃ r, (AnalyzeSpectrum E o s samples).2 = GoResult.ok r) ∧
    0 < (AnalyzeSpectrum E o s samples).1.windowSize := by
  by_cases hlen : samples.length = 0
  · have hnil : samples = [] := List.length_eq_zero.1 hlen
    subst hnil
    rw [AnalyzeSpectrum_empty]
    exact ⟨⟨fun _ => rfl, fun _ => ⟨_, rfl⟩⟩, fun h => absurd rfl h, hs⟩
  · obtain ⟨window, hwin, _⟩ :=
      extractWindow_some (adjustWindowSize s (samples.length : Int)) samples
        (adjustWindowSize_pos s _ hs)
    rw [AnalyzeSpectrum_eq E o s samples window hlen hwin]
    refine ⟨⟨?_, fun h => absurd h hlen⟩, fun _ => ⟨_, rfl⟩, adjustWindowSize_pos s _ hs⟩
    rintro ⟨msg, hmsg⟩
    cases hmsg

theorem AnalyzeSpectrum_error_iff_empty_witness :
    (0 : Int) < (NewSpectrumAnalyzer 44100).windowSize ∧
    (∃ r, (AnalyzeSpectrum rationalExtern IterOrder.declared (NewSpectrumAnalyzer 44100)
      [1 / 2, -1 / 4, 1 / 8]).2 = GoResult.ok r) ∧
    (∃ msg, (AnalyzeSpectrum rationalExtern IterOrder.declared (NewSpectrumAnalyzer 44100)
      []).2 = GoResult.err msg) :=
  ⟨by decide,
    (AnalyzeSpectrum_error_iff_empty rationalExtern IterOrder.declared
      (NewSpectrumAnalyzer 44100) [1 / 2, -1 / 4, 1 / 8] (by decide)).2.1 (by simp),
    (AnalyzeSpectrum_error_iff_empty rationalExtern IterOrder.declared
      (NewSpectrumAnalyzer 44100) [] (by decide)).1.2 rfl⟩

/-- C2, as stated, fails: a fresh analyzer given 100 samples ends with window size
128 (not 64, and above the buffer length), and the extracted window is the whole
buffer of 100 samples, which is not a power of two. -/
theorem AnalyzeSpectrum_short_buffer_counterexample :
    (AnalyzeSpectrum rationalExtern IterOrder.declared (NewSpectrumAnalyzer 44100)
        (List.replicate 100 0)).1.windowSize = 128 ∧
    (extractWindow (AnalyzeSpectrum rationalExtern IterOrder.declared
        (NewSpectrumAnalyzer 44100) (List.replicate 100 0)).1
        (List.replicate 100 0)).map List.length = some 100 := by
  constructor
  · decide
  · decide

/-- C2, amended: for a buffer of `n` samples, `1 ≤ n < 8192`, a fresh analyzer
returns a verdict without panic; the window size becomes the least power of two
that is at least `n` (128 for `n = 100`), and the analysis window is the whole
buffer, from which the verdict is computed. -/
theorem AnalyzeSpectrum_short_buffer {C : Type} (E : Extern C) (o : IterOrder)
    (sampleRate : Int) (samples : List ℚ)
    (h1 : 1 ≤ samples.length) (h2 : samples.length < 8192) :
    ∃ (j : Nat) (r : SpectrumResult),
      AnalyzeSpectrum E o (NewSpectrumAnalyzer sampleRate) samples =
        ({ sampleRate := sampleRate, windowSize := 2 ^ j }, GoResult.ok r) ∧
      (samples.length : Int) ≤ 2 ^ j ∧
      (∀ m : Nat, (samples.length : Int) ≤ 2 ^ m → (2 : Int) ^ j ≤ 2 ^ m) ∧
      (samples.length = 100 → j = 7) ∧
      extractWindow { sampleRate := sampleRate, windowSize := 2 ^ j } samples = some samples ∧
      r = analyzeFrequencyContent o { sampleRate := sampleRate, windowSize := 2 ^ j }
        (calculatePowerSpectrum E (E.FFTReal (applyHammingWindow E samples))) := by
  obtain ⟨j, hj, hge, hmin⟩ := nearestPowerOf2_spec (samples.length : Int)
  have hadj : adjustWindowSize (NewSpectrumAnalyzer sampleRate) (samples.length : Int) =
      { sampleRate := sampleRate, windowSize := 2 ^ j } := by
    unfold adjustWindowSize NewSpectrumAnalyzer
    rw [if_pos (by simp only; omega), hj]
  have hwin : extractWindow { sampleRate := sampleRate, windowSize := 2 ^ j } samples =
      some samples := extractWindow_whole _ samples hge
  refine ⟨j, _, ?_, hge, hmin, ?_, hwin, rfl⟩
  · rw [AnalyzeSpectrum_eq E o _ samples samples (by omega) (by rw [hadj]; exact hwin), hadj]
  · intro h100
    rw [h100] at hge hmin
    have h7 : (2 : Int) ^ j ≤ 2 ^ 7 := hmin 7 (by norm_num)
    have hj7 : j ≤ 7 := (pow_le_pow_iff_right₀ (by norm_num : (1 : Int) < 2)).1 h7
    interval_cases j <;> first | rfl | (norm_num at hge)

theorem AnalyzeSpectrum_short_buffer_witness :
    ∃ (j : Nat) (r : SpectrumResult),
      AnalyzeSpectrum rationalExtern IterOrder.declared (NewSpectrumAnalyzer 44100)
          [1 / 2, -1 / 4, 1 / 8] =
        ({ sampleRate := 44100, windowSize := 2 ^ j }, GoResult.ok r) ∧
      (([1 / 2, -1 / 4, 1 / 8] : List ℚ).length : Int) ≤ 2 ^ j ∧
      (∀ m : Nat, (([1 / 2, -1 / 4, 1 / 8] : List ℚ).length : Int) ≤ 2 ^ m →
        (2 : Int) ^ j ≤ 2 ^ m) ∧
      (([1 / 2, -1 / 4, 1 / 8] : List ℚ).length = 100 → j = 7) ∧
      extractWindow { sampleRate := 44100, windowSize := 2 ^ j } [1 / 2, -1 / 4, 1 / 8] =
        some [1 / 2, -1 / 4, 1 / 8] ∧
      r = analyzeFrequencyContent IterOrder.declared { sampleRate := 44100, windowSize := 2 ^ j }
        (calculatePowerSpectrum rationalExtern
          (rationalExtern.FFTReal (applyHammingWindow rationalExtern [1 / 2, -1 / 4, 1 / 8]))) :=
  AnalyzeSpectrum_short_buffer rationalExtern IterOrder.declared 44100 [1 / 2, -1 / 4, 1 / 8]
    (by decide) (by decide)

/-- C3, at the failing input: a fresh analyzer given a one-sample buffer `[x]`, with
a transform that returns as many coefficients as the window has samples, passes
the empty-input check and takes the one sample as its window, so the Hamming
weight of line 74 divides by `n - 1 = 0`; it hands the classifier an empty power
spectrum, so the resolution of line 105 divides by `len * 2 = 0`.  What Go computes
from these divisions (NaN and +Inf) is outside the rational model, and nothing is
stated here about the frequencies of the result. -/
theorem AnalyzeSpectrum_one_sample {C : Type} (E : Extern C)
    (hfft : ∀ xs, (E.FFTReal xs).length = xs.length) (o : IterOrder)
    (sampleRate : Int) (x : ℚ) :
    extractWindow (adjustWindowSize (NewSpectrumAnalyzer sampleRate) 1) [x] = some [x] ∧
    (([x] : List ℚ).length : Int) - 1 = 0 ∧
    ∃ r, (AnalyzeSpectrum E o (NewSpectrumAnalyzer sampleRate) [x]).2 = GoResult.ok r ∧
      r.PowerSpectrum = [] ∧ r.PowerSpectrum.length * 2 = 0 := by
  have hadj : adjustWindowSize (NewSpectrumAnalyzer sampleRate) 1 =
      { sampleRate := sampleRate, windowSize := 1 } := by
    unfold adjustWindowSize NewSpectrumAnalyzer
    rw [if_pos (by norm_num)]
    rfl
  have hwin : extractWindow (adjustWindowSize (NewSpectrumAnalyzer sampleRate) 1) [x] =
      some [x] := by
    rw [hadj]
    exact extractWindow_whole _ [x] (by simp)
  have hP : calculatePowerSpectrum E (E.FFTReal (applyHammingWindow E [x])) = [] := by
    apply List.length_eq_zero.1
    rw [calculatePowerSpectrum_length, hfft, applyHammingWindow_length]
    simp
  refine ⟨hwin, ?_, ?_⟩
  · simp
  · refine ⟨analyzeFrequencyContent o (adjustWindowSize (NewSpectrumAnalyzer sampleRate) 1)
      (calculatePowerSpectrum E (E.FFTReal (applyHammingWindow E [x]))), ?_, ?_, ?_⟩
    · rw [AnalyzeSpectrum_eq E o _ [x] [x] (by simp) (by simpa using hwin)]
      simp
    · rw [analyzeFrequencyContent_PowerSpectrum, hP]
    · rw [analyzeFrequencyContent_PowerSpectrum, hP]
      rfl

theorem AnalyzeSpectrum_one_sample_witness :
    (∀ xs, (rationalExtern.FFTReal xs).length = xs.length) ∧
    (AnalyzeSpectrum rationalExtern IterOrder.declared (NewSpectrumAnalyzer 44100)
        [1 / 2]).2.value?.map SpectrumResult.PowerSpectrum = some [] := by
  obtain ⟨_, _, r, hr, hP, _⟩ :=
    AnalyzeSpectrum_one_sample rationalExtern (fun xs => by simp [rationalExtern])
      IterOrder.declared 44100 (1 / 2)
  refine ⟨fun xs => by simp [rationalExtern], ?_⟩
  rw [hr]
  simp only [GoResult.value?, Option.map_some', hP]

/-- C4: for a fresh analyzer and a non-empty buffer of `n` samples, with `w` the
window size after the short-buffer adjustment, the indices of the slice satisfy
`0 ≤ start ≤ end ≤ n` and the slice does not panic; `start = n / 4` and
`end = start + w` when `n / 4 + w ≤ n`, otherwise `end = n` and
`start = max 0 (n - w)`. -/
theorem AnalyzeSpectrum_window_indices {C : Type} (E : Extern C) (o : IterOrder)
    (sampleRate : Int) (samples : List ℚ) (hne : samples ≠ []) :
    ∃ w startIdx endIdx : Int,
      (AnalyzeSpectrum E o (NewSpectrumAnalyzer sampleRate) samples).1.windowSize = w ∧
      windowIndices w (samples.length : Int) = (startIdx, endIdx) ∧
      extractWindow (AnalyzeSpectrum E o (NewSpectrumAnalyzer sampleRate) samples).1 samples =
        sliceRange samples startIdx endIdx ∧
      (sliceRange samples startIdx endIdx).isSome = true ∧
      0 ≤ startIdx ∧ startIdx ≤ endIdx ∧ endIdx ≤ (samples.length : Int) ∧
      ((samples.length : Int) / 4 + w ≤ (samples.length : Int) →
        startIdx = (samples.length : Int) / 4 ∧ endIdx = startIdx + w) ∧
      (¬ (samples.length : Int) / 4 + w ≤ (samples.length : Int) →
        endIdx = (samples.length : Int) ∧ startIdx = max 0 ((samples.length : Int) - w)) := by
  have hlen : samples.length ≠ 0 := fun h => hne (List.length_eq_zero.1 h)
  have hpos : (0 : Int) < (NewSpectrumAnalyzer sampleRate).windowSize := by
    simp [NewSpectrumAnalyzer]
  have hw := adjustWindowSize_pos (NewSpectrumAnalyzer sampleRate) (samples.length : Int) hpos
  obtain ⟨h0, h1, h2, _⟩ :=
    windowIndices_bounds _ (samples.length : Int) (le_of_lt hw) (Int.ofNat_nonneg _)
  obtain ⟨window, hwin, _⟩ := extractWindow_some _ samples hw
  have hfst : (AnalyzeSpectrum E o (NewSpectrumAnalyzer sampleRate) samples).1 =
      adjustWindowSize (NewSpectrumAnalyzer sampleRate) (samples.length : Int) := by
    rw [AnalyzeSpectrum_eq E o _ samples window hlen hwin]
  have hslice : extractWindow
      (adjustWindowSize (NewSpectrumAnalyzer sampleRate) (samples.length : Int)) samples =
      sliceRange samples
        (windowIndices (adjustWindowSize (NewSpectrumAnalyzer sampleRate)
          (samples.length : Int)).windowSize (samples.length : Int)).1
        (windowIndices (adjustWindowSize (NewSpectrumAnalyzer sampleRate)
          (samples.length : Int)).windowSize (samples.length : Int)).2 := by
    simp only [extractWindow]
  refine ⟨(adjustWindowSize (NewSpectrumAnalyzer sampleRate) (samples.length : Int)).windowSize,
    (windowIndices (adjustWindowSize (NewSpectrumAnalyzer sampleRate)
      (samples.length : Int)).windowSize (samples.length : Int)).1,
    (windowIndices (adjustWindowSize (NewSpectrumAnalyzer sampleRate)
      (samples.length : Int)).windowSize (samples.length : Int)).2,
    by rw [hfst], Prod.mk.eta.symm, by rw [hfst]; exact hslice, ?_, h0, h1, h2, ?_, ?_⟩
  · rw [← hslice, hwin]; rfl
  · intro hfit
    rw [windowIndices_fit _ _ hfit]
    exact ⟨rfl, rfl⟩
  · intro hfit
    rw [windowIndices_shift _ _ hfit]
    exact ⟨rfl, rfl⟩

theorem AnalyzeSpectrum_window_indices_witness :
    ([1 / 2, -1 / 4, 1 / 8] : List ℚ) ≠ [] ∧
    ∃ w startIdx endIdx : Int,
      (AnalyzeSpectrum rationalExtern IterOrder.declared (NewSpectrumAnalyzer 44100)
        [1 / 2, -1 / 4, 1 / 8]).1.windowSize = w ∧
      windowIndices w 3 = (startIdx, endIdx) ∧
      0 ≤ startIdx ∧ startIdx ≤ endIdx ∧ endIdx ≤ 3 := by
  obtain ⟨w, a, b, hw, hidx, _, _, h0, h1, h2, _⟩ :=
    AnalyzeSpectrum_window_indices rationalExtern IterOrder.declared 44100
      [1 / 2, -1 / 4, 1 / 8] (by simp)
  exact ⟨by simp, w, a, b, hw, hidx, h0, h1, h2⟩

/-! ## Claims on the classification rules -/

/-- C5: when `maxFreq` is within 500 Hz of a signature `c` of the table (16000 for
MP3 128kbps, 17000 for 160kbps, 19000 for 192kbps, 20000 for 256kbps, 21000 for
320kbps), `determineFakeStatus` returns `isFake = true` with the explanation
naming that codec, for every cutoff frequency and sample rate; no other signature
is within 500 Hz of `maxFreq`, and every visiting order of the table gives the
same result. -/
theorem determineFakeStatus_signature (o : IterOrder) (s : SpectrumAnalyzer)
    (maxFreq cutoffFreq c : ℚ) (name : String)
    (hmem : (c, name) ∈ [((16000 : ℚ), "MP3 128kbps"), (17000, "MP3 160kbps"),
      (19000, "MP3 192kbps"), (20000, "MP3 256kbps"), (21000, "MP3 320kbps")])
    (hnear : |maxFreq - c| < 500) :
    determineFakeStatus o s maxFreq cutoffFreq =
      (true, Details.codecSignature name maxFreq) ∧
    (∀ e ∈ commonCutoffs, |maxFreq - e.1| < 500 → e = (c, name)) ∧
    (∀ o' : IterOrder, determineFakeStatus o' s maxFreq cutoffFreq =
      determineFakeStatus o s maxFreq cutoffFreq) :=
  ⟨determineFakeStatus_of_match o s maxFreq cutoffFreq (c, name) hmem hnear,
    fun e he hn => commonCutoffs_unique maxFreq (c, name) e hmem he hnear hn,
    fun o' => determineFakeStatus_order o o' s maxFreq cutoffFreq⟩

theorem determineFakeStatus_signature_witness :
    |(16200 : ℚ) - 16000| < 500 ∧
    determineFakeStatus IterOrder.declared (NewSpectrumAnalyzer 44100) 16200 22050 =
      (true, Details.codecSignature "MP3 128kbps" 16200) :=
  ⟨by norm_num [abs_lt],
    (determineFakeStatus_signature IterOrder.declared (NewSpectrumAnalyzer 44100)
      16200 22050 16000 "MP3 128kbps" (by simp) (by norm_num [abs_lt])).1⟩

/-- C6: `determineFakeStatus` returns `isFake = false` exactly when `maxFreq` is
within 500 Hz of no signature, `maxFreq ≥ 18000` and
`cutoffFreq ≥ 0.9 * (sampleRate / 2)`.  With no signature matching, `maxFreq < 18000`
gives the too-low explanation whatever the cutoff; the cutoff explanation is given
exactly when moreover `maxFreq ≥ 18000` and `cutoffFreq < 0.9 * (sampleRate / 2)`,
and it states `cutoffFreq`; the genuine explanation states `maxFreq`. -/
theorem determineFakeStatus_genuine_iff (o : IterOrder) (s : SpectrumAnalyzer)
    (maxFreq cutoffFreq : ℚ) :
    ((determineFakeStatus o s maxFreq cutoffFreq).1 = false ↔
      (∀ e ∈ commonCutoffs, ¬ |maxFreq - e.1| < 500) ∧ maxFreq ≥ 18000 ∧
        cutoffFreq ≥ 0.9 * ((s.sampleRate : ℚ) / 2)) ∧
    ((∀ e ∈ commonCutoffs, ¬ |maxFreq - e.1| < 500) → maxFreq < 18000 →
      determineFakeStatus o s maxFreq cutoffFreq = (true, Details.tooLow maxFreq)) ∧
    ((∃ x, (determineFakeStatus o s maxFreq cutoffFreq).2 = Details.cutoffDetected x) ↔
      (∀ e ∈ commonCutoffs, ¬ |maxFreq - e.1| < 500) ∧ maxFreq ≥ 18000 ∧
        cutoffFreq < 0.9 * ((s.sampleRate : ℚ) / 2)) ∧
    ((∃ x, (determineFakeStatus o s maxFreq cutoffFreq).2 = Details.cutoffDetected x) →
      determineFakeStatus o s maxFreq cutoffFreq = (true, Details.cutoffDetected cutoffFreq)) ∧
    ((determineFakeStatus o s maxFreq cutoffFreq).1 = false →
      determineFakeStatus o s maxFreq cutoffFreq = (false, Details.normal maxFreq)) := by
  have hcomm : (s.sampleRate : ℚ) / 2 * 0.9 = 0.9 * ((s.sampleRate : ℚ) / 2) := by ring
  by_cases h : ∀ e ∈ commonCutoffs, ¬ |maxFreq - e.1| < 500
  · rw [determineFakeStatus_of_no_match o s _ _ h, hcomm]
    by_cases h18 : maxFreq < 18000
    · rw [if_pos h18]
      refine ⟨⟨fun hf => (by cases hf), fun hc => absurd h18 (not_lt.2 hc.2.1)⟩,
        fun _ _ => rfl, ⟨?_, fun hc => absurd h18 (not_lt.2 hc.2.1)⟩, ?_,
        fun hf => (by cases hf)⟩
      · rintro ⟨x, hx⟩; cases hx
      · rintro ⟨x, hx⟩; cases hx
    · rw [if_neg h18]
      by_cases hcut : cutoffFreq < 0.9 * ((s.sampleRate : ℚ) / 2)
      · rw [if_pos hcut]
        refine ⟨⟨fun hf => (by cases hf), fun hc => absurd hcut (not_lt.2 hc.2.2)⟩,
          fun _ hlt => absurd hlt h18, ⟨fun _ => ⟨h, not_lt.1 h18, hcut⟩, fun _ => ⟨_, rfl⟩⟩,
          fun _ => rfl, fun hf => (by cases hf)⟩
      · rw [if_neg hcut]
        refine ⟨⟨fun _ => ⟨h, not_lt.1 h18, not_lt.1 hcut⟩, fun _ => rfl⟩,
          fun _ hlt => absurd hlt h18, ⟨?_, fun hc => absurd hc.2.2 hcut⟩, ?_, fun _ => rfl⟩
        · rintro ⟨x, hx⟩; cases hx
        · rintro ⟨x, hx⟩; cases hx
  · have h' := h
    push_neg at h'
    obtain ⟨e, he, hn⟩ := h'
    rw [determineFakeStatus_of_match o s _ _ e he hn]
    refine ⟨⟨fun hf => (by cases hf), fun hc => absurd hc.1 h⟩, fun hno => absurd hno h,
      ⟨?_, fun hc => absurd hc.1 h⟩, ?_, fun hf => (by cases hf)⟩
    · rintro ⟨x, hx⟩; cases hx
    · rintro ⟨x, hx⟩; cases hx

theorem determineFakeStatus_genuine_iff_witness :
    determineFakeStatus IterOrder.declared (NewSpectrumAnalyzer 44100) 0 22050 =
      (true, Details.tooLow 0) ∧
    determineFakeStatus IterOrder.declared (NewSpectrumAnalyzer 44100) 22000 22050 =
      (false, Details.normal 22000) ∧
    determineFakeStatus IterOrder.declared (NewSpectrumAnalyzer 44100) 18200 15000 =
      (true, Details.cutoffDetected 15000) :=
  ⟨(determineFakeStatus_genuine_iff IterOrder.declared (NewSpectrumAnalyzer 44100) 0 22050).2.1
      (no_match_of_outside 0 (Or.inl (by norm_num))) (by norm_num),
    (determineFakeStatus_genuine_iff IterOrder.declared
      (NewSpectrumAnalyzer 44100) 22000 22050).2.2.2.2
      ((determineFakeStatus_genuine_iff IterOrder.declared
        (NewSpectrumAnalyzer 44100) 22000 22050).1.2
        ⟨no_match_of_outside 22000 (Or.inr (Or.inr (by norm_num))), by norm_num,
          by norm_num [NewSpectrumAnalyzer]⟩),
    (determineFakeStatus_genuine_iff IterOrder.declared
      (NewSpectrumAnalyzer 44100) 18200 15000).2.2.2.1
      ((determineFakeStatus_genuine_iff IterOrder.declared
        (NewSpectrumAnalyzer 44100) 18200 15000).2.2.1.2
        ⟨no_match_of_outside 18200 (Or.inr (Or.inl ⟨by norm_num, by norm_num⟩)), by norm_num,
          by norm_num [NewSpectrumAnalyzer]⟩)⟩

/-- C7, as stated, fails: a spectrum of 4096 bins of equal power 1 at 44100 Hz is
reported as fake, with the too-low explanation at 0 Hz. -/
theorem analyzeFrequencyContent_white_counterexample :
    (analyzeFrequencyContent IterOrder.declared (NewSpectrumAnalyzer 44100)
      (List.replicate 4096 1)).IsFake = true ∧
    (analyzeFrequencyContent IterOrder.declared (NewSpectrumAnalyzer 44100)
      (List.replicate 4096 1)).Details = Details.tooLow 0 := by
  rw [analyzeFrequencyContent_flat IterOrder.declared (NewSpectrumAnalyzer 44100) 4096 1
    (by norm_num) (by norm_num)]
  exact ⟨rfl, rfl⟩

/-- C7, amended: on every non-empty spectrum whose bins all carry the same positive
power `p`, at every sample rate, the noise floor is `p`, no bin exceeds ten times
the noise floor, the effective frequency is 0 Hz, and `analyzeFrequencyContent`
reports `IsFake = true` with the too-low explanation. -/
theorem analyzeFrequencyContent_white (o : IterOrder) (s : SpectrumAnalyzer)
    (L : Nat) (p : ℚ) (hL : 1 ≤ L) (hp : 0 < p) :
    calculateNoiseFloor (List.replicate L p) = p ∧
    (∀ i < L, ¬ (List.replicate L p).getD i 0 > calculateNoiseFloor (List.replicate L p) * 10) ∧
    (analyzeFrequencyContent o s (List.replicate L p)).MaxFrequency = 0 ∧
    (analyzeFrequencyContent o s (List.replicate L p)).IsFake = true ∧
    (analyzeFrequencyContent o s (List.replicate L p)).Details = Details.tooLow 0 := by
  rw [analyzeFrequencyContent_flat o s L p hL (le_of_lt hp), calculateNoiseFloor_replicate L p hL]
  refine ⟨rfl, ?_, rfl, rfl, rfl⟩
  intro i hi
  rw [getD_replicate_lt L i p hi]
  intro hgt
  linarith

theorem analyzeFrequencyContent_white_witness :
    (1 : Nat) ≤ 4 ∧ (0 : ℚ) < 3 ∧
    (analyzeFrequencyContent IterOrder.declared (NewSpectrumAnalyzer 48000)
      (List.replicate 4 3)).IsFake = true :=
  ⟨by norm_num, by norm_num,
    (analyzeFrequencyContent_white IterOrder.declared (NewSpectrumAnalyzer 48000) 4 3
      (by norm_num) (by norm_num)).2.2.2.1⟩

/-- C8: at 44100 Hz a buffer of 20000 zero-valued samples gives no error; the
classifier receives 4096 zero bins, the noise floor and the maximum power are 0,
`MaxFrequency` is 0 Hz, the cutoff is the full extent `4096 * (44100 / 8192)`,
which is 22050 Hz, and the verdict is fake by rule 2 with the too-low explanation at
0 Hz.  The same holds of every non-empty all-zero power spectrum.  The transform
is assumed to keep the length and to map a zero window to coefficients of
magnitude zero. -/
theorem AnalyzeSpectrum_silence {C : Type} (E : Extern C)
    (hfft : ∀ xs, (E.FFTReal xs).length = xs.length)
    (hzero : ∀ k, ∀ c ∈ E.FFTReal (List.replicate k 0), E.cabs c = 0) (o : IterOrder) :
    AnalyzeSpectrum E o (NewSpectrumAnalyzer 44100) (List.replicate 20000 0) =
      (NewSpectrumAnalyzer 44100,
        GoResult.ok
          { MaxFrequency := 0
            CutoffFrequency := 22050
            IsFake := true
            Details := Details.tooLow 0
            PowerSpectrum := List.replicate 4096 0 }) ∧
    (4096 : ℚ) * ((44100 : ℚ) / 8192) = 22050 ∧
    ∀ (s : SpectrumAnalyzer) (L : Nat), 1 ≤ L →
      calculateNoiseFloor (List.replicate L 0) = 0 ∧
      maxPower (List.replicate L 0) = 0 ∧
      analyzeFrequencyContent o s (List.replicate L 0) =
        { MaxFrequency := 0
          CutoffFrequency := (L : ℚ) * ((s.sampleRate : ℚ) / ((L * 2 : Nat) : ℚ))
          IsFake := true
          Details := Details.tooLow 0
          PowerSpectrum := List.replicate L 0 } := by
  refine ⟨?_, by norm_num, ?_⟩
  · have hadj : adjustWindowSize (NewSpectrumAnalyzer 44100) ((20000 : Nat) : Int) =
        NewSpectrumAnalyzer 44100 := by
      unfold adjustWindowSize NewSpectrumAnalyzer
      rw [if_neg (by norm_num)]
    have hbins : min 20000 8192 / 2 = 4096 := by norm_num
    rw [AnalyzeSpectrum_zeros E hfft hzero o 44100 20000 (by norm_num), hadj, hbins,
      analyzeFrequencyContent_flat o (NewSpectrumAnalyzer 44100) 4096 0 (by norm_num)
        (le_refl 0)]
    have hcut : ((4096 : Nat) : ℚ) * ((((NewSpectrumAnalyzer 44100).sampleRate : Int) : ℚ) /
        ((4096 * 2 : Nat) : ℚ)) = 22050 := by
      norm_num [NewSpectrumAnalyzer]
    rw [hcut]
  · intro s L hL
    exact ⟨calculateNoiseFloor_replicate L 0 hL, maxPower_replicate L 0 hL (le_refl 0),
      analyzeFrequencyContent_flat o s L 0 hL (le_refl 0)⟩

theorem AnalyzeSpectrum_silence_witness :
    (∀ xs, (rationalExtern.FFTReal xs).length = xs.length) ∧
    (∀ k, ∀ c ∈ rationalExtern.FFTReal (List.replicate k 0), rationalExtern.cabs c = 0) ∧
    AnalyzeSpectrum rationalExtern IterOrder.declared (NewSpectrumAnalyzer 44100)
        (List.replicate 20000 0) =
      (NewSpectrumAnalyzer 44100,
        GoResult.ok
          { MaxFrequency := 0
            CutoffFrequency := 22050
            IsFake := true
            Details := Details.tooLow 0
            PowerSpectrum := List.replicate 4096 0 }) :=
  ⟨fun xs => by simp [rationalExtern],
    fun k c hc => by
      simp only [rationalExtern, List.map_replicate] at hc
      rw [List.eq_of_mem_replicate hc]
      simp [rationalExtern],
    (AnalyzeSpectrum_silence rationalExtern (fun xs => by simp [rationalExtern])
      (fun k c hc => by
        simp only [rationalExtern, List.map_replicate] at hc
        rw [List.eq_of_mem_replicate hc]
        simp [rationalExtern])
      IterOrder.declared).1⟩

/-- C9, as stated, fails for a negative resolution: on the twelve bins
`100, 0, ..., 0, 100` with `r = -2` the cutoff is `(1 + 10) * (-2) = -22`, which is
above `L * r = -24`. -/
theorem detectFrequencyCutoff_bound_counterexample :
    detectFrequencyCutoff [100, 0, 0, 0, 0, 0, 0, 0, 0, 0, 0, 100] (-2) = -22 ∧
    (([100, 0, 0, 0, 0, 0, 0, 0, 0, 0, 0, 100] : List ℚ).length : ℚ) * (-2) = -24 ∧
    ¬ detectFrequencyCutoff [100, 0, 0, 0, 0, 0, 0, 0, 0, 0, 0, 100] (-2) ≤
      (([100, 0, 0, 0, 0, 0, 0, 0, 0, 0, 0, 100] : List ℚ).length : ℚ) * (-2) := by
  have hval : detectFrequencyCutoff [100, 0, 0, 0, 0, 0, 0, 0, 0, 0, 0, 100] (-2) = -22 := by
    norm_num [detectFrequencyCutoff, cutoffLoop, maxPower]
  refine ⟨hval, by norm_num, ?_⟩
  rw [hval]
  norm_num

/-- C9, amended: with `t` 1% of the running maximum of the spectrum (an upper bound
of the bins, attained on a non-empty spectrum of non-negative powers): if some bin
starts a run of ten bins all strictly below `t`, `detectFrequencyCutoff` returns
`(i + 10) * r` for the largest such start `i`, where `i + 10 ≤ L` and either
`i + 10 = L` or bin `i + 10` is at least `t`; if no bin starts such a run it
returns `L * r`; for every resolution `r ≥ 0` the result is at most `L * r`. -/
theorem detectFrequencyCutoff_highest_run (P : List ℚ) (r : ℚ) :
    ((∀ p ∈ P, p ≤ maxPower P) ∧ (P ≠ [] → (∀ p ∈ P, 0 ≤ p) → maxPower P ∈ P)) ∧
    ((∃ i, LowRun P (maxPower P * 0.01) i) →
      ∃ i, LowRun P (maxPower P * 0.01) i ∧
        (∀ i', LowRun P (maxPower P * 0.01) i' → i' ≤ i) ∧ i + 10 ≤ P.length ∧
        (i + 10 = P.length ∨ (i + 10 < P.length ∧ P.getD (i + 10) 0 ≥ maxPower P * 0.01)) ∧
        detectFrequencyCutoff P r = ((i + 10 : Nat) : ℚ) * r) ∧
    ((¬ ∃ i, LowRun P (maxPower P * 0.01) i) →
      detectFrequencyCutoff P r = (P.length : ℚ) * r) ∧
    (0 ≤ r → detectFrequencyCutoff P r ≤ (P.length : ℚ) * r) := by
  refine ⟨⟨(maxPower_spec P).2.1, (maxPower_spec P).2.2⟩, ?_, ?_, ?_⟩
  · intro hex
    rcases detectFrequencyCutoff_spec P r with ⟨i, hrun, hmax, hedge, hres⟩ | ⟨hno, _⟩
    · refine ⟨i, hrun, hmax, hrun.1, ?_, hres⟩
      rcases hedge with h | h
      · exact Or.inl h
      · rcases Nat.eq_or_lt_of_le hrun.1 with heq | hlt
        · exact Or.inl heq
        · exact Or.inr ⟨hlt, not_lt.1 h⟩
    · obtain ⟨i, hi⟩ := hex
      exact absurd hi (hno i)
  · intro hno
    rcases detectFrequencyCutoff_spec P r with ⟨i, hrun, _, _, _⟩ | ⟨_, hres⟩
    · exact absurd ⟨i, hrun⟩ hno
    · exact hres
  · intro hr
    rcases detectFrequencyCutoff_spec P r with ⟨i, hrun, _, _, hres⟩ | ⟨_, hres⟩
    · rw [hres]
      have hle : ((i + 10 : Nat) : ℚ) ≤ (P.length : ℚ) := by exact_mod_cast hrun.1
      exact mul_le_mul_of_nonneg_right hle hr
    · rw [hres]

theorem detectFrequencyCutoff_highest_run_witness :
    (∃ i, LowRun [100, 0, 0, 0, 0, 0, 0, 0, 0, 0, 0, 100]
      (maxPower [100, 0, 0, 0, 0, 0, 0, 0, 0, 0, 0, 100] * 0.01) i) ∧
    (0 : ℚ) ≤ 2 ∧
    detectFrequencyCutoff [100, 0, 0, 0, 0, 0, 0, 0, 0, 0, 0, 100] 2 ≤
      (([100, 0, 0, 0, 0, 0, 0, 0, 0, 0, 0, 100] : List ℚ).length : ℚ) * 2 ∧
    ∃ i, (∀ i', LowRun [100, 0, 0, 0, 0, 0, 0, 0, 0, 0, 0, 100]
        (maxPower [100, 0, 0, 0, 0, 0, 0, 0, 0, 0, 0, 100] * 0.01) i' → i' ≤ i) ∧
      detectFrequencyCutoff [100, 0, 0, 0, 0, 0, 0, 0, 0, 0, 0, 100] 2 =
        ((i + 10 : Nat) : ℚ) * 2 := by
  have hex : ∃ i, LowRun [100, 0, 0, 0, 0, 0, 0, 0, 0, 0, 0, 100]
      (maxPower [100, 0, 0, 0, 0, 0, 0, 0, 0, 0, 0, 100] * 0.01) i := by
    refine ⟨1, by simp, ?_⟩
    intro j hj
    interval_cases j <;> norm_num [maxPower]
  obtain ⟨i, _, hmax, _, _, hres⟩ :=
    (detectFrequencyCutoff_highest_run [100, 0, 0, 0, 0, 0, 0, 0, 0, 0, 0, 100] 2).2.1 hex
  exact ⟨hex, by norm_num,
    (detectFrequencyCutoff_highest_run [100, 0, 0, 0, 0, 0, 0, 0, 0, 0, 0, 100] 2).2.2.2
      (by norm_num), i, hmax, hres⟩

/-- C10: on a non-empty spectrum the noise floor is the arithmetic mean of the bins
with index in `[9 L / 10, L)`, a non-empty range; `findMaxEffectiveFrequency`
returns `k * r` for the largest bin `k` whose power exceeds ten times the noise
floor, and 0 when no bin does. -/
theorem findMaxEffectiveFrequency_highest_bin (P : List ℚ) (r : ℚ) (hne : P ≠ []) :
    P.length * 9 / 10 < P.length ∧
    calculateNoiseFloor P =
      (P.drop (P.length * 9 / 10)).sum / ((P.length - P.length * 9 / 10 : Nat) : ℚ) ∧
    ((∃ k, k < P.length ∧ P.getD k 0 > 10 * calculateNoiseFloor P) →
      ∃ k, k < P.length ∧ P.getD k 0 > 10 * calculateNoiseFloor P ∧
        (∀ j, j < P.length → P.getD j 0 > 10 * calculateNoiseFloor P → j ≤ k) ∧
        findMaxEffectiveFrequency P r = (k : ℚ) * r) ∧
    ((∀ k, k < P.length → ¬ P.getD k 0 > 10 * calculateNoiseFloor P) →
      findMaxEffectiveFrequency P r = 0) := by
  obtain ⟨hlt, hmean⟩ := calculateNoiseFloor_eq_mean P hne
  have hcomm : calculateNoiseFloor P * 10 = 10 * calculateNoiseFloor P := mul_comm _ _
  have hspec := findMaxLoop_spec P (calculateNoiseFloor P * 10) r P.length
  rw [hcomm] at hspec
  have hdef : findMaxEffectiveFrequency P r =
      findMaxLoop P (10 * calculateNoiseFloor P) r P.length := by
    unfold findMaxEffectiveFrequency
    simp only [hcomm]
  refine ⟨hlt, hmean, ?_, ?_⟩
  · rintro ⟨k, hk, hgt⟩
    rcases hspec with ⟨j, hj, hjg, hmax, hres⟩ | ⟨hno, _⟩
    · exact ⟨j, hj, hjg, hmax, by rw [hdef, hres]⟩
    · exact absurd hgt (hno k hk)
  · intro hno
    rcases hspec with ⟨j, hj, hjg, _, _⟩ | ⟨_, hres⟩
    · exact absurd hjg (hno j hj)
    · rw [hdef, hres]

theorem findMaxEffectiveFrequency_highest_bin_witness :
    ([5, 1000, 1, 1, 1, 1, 1, 1, 1, 2] : List ℚ) ≠ [] ∧
    (∃ k, k < ([5, 1000, 1, 1, 1, 1, 1, 1, 1, 2] : List ℚ).length ∧
      ([5, 1000, 1, 1, 1, 1, 1, 1, 1, 2] : List ℚ).getD k 0 >
        10 * calculateNoiseFloor [5, 1000, 1, 1, 1, 1, 1, 1, 1, 2]) ∧
    ∃ k, (∀ j, j < ([5, 1000, 1, 1, 1, 1, 1, 1, 1, 2] : List ℚ).length →
        ([5, 1000, 1, 1, 1, 1, 1, 1, 1, 2] : List ℚ).getD j 0 >
          10 * calculateNoiseFloor [5, 1000, 1, 1, 1, 1, 1, 1, 1, 2] → j ≤ k) ∧
      findMaxEffectiveFrequency [5, 1000, 1, 1, 1, 1, 1, 1, 1, 2] 3 = (k : ℚ) * 3 := by
  have hex : ∃ k, k < ([5, 1000, 1, 1, 1, 1, 1, 1, 1, 2] : List ℚ).length ∧
      ([5, 1000, 1, 1, 1, 1, 1, 1, 1, 2] : List ℚ).getD k 0 >
        10 * calculateNoiseFloor [5, 1000, 1, 1, 1, 1, 1, 1, 1, 2] := by
    refine ⟨1, by simp, ?_⟩
    rw [(calculateNoiseFloor_eq_mean [5, 1000, 1, 1, 1, 1, 1, 1, 1, 2] (by simp)).2]
    norm_num
  obtain ⟨k, _, _, hmax, hres⟩ :=
    (findMaxEffectiveFrequency_highest_bin [5, 1000, 1, 1, 1, 1, 1, 1, 1, 2] 3 (by simp)).2.2.1 hex
  exact ⟨by simp, hex, k, hmax, hres⟩

/-! ## Claims on the per-file analysis and the worker pool -/

/-- C11: in `analyzeFile`, for every spectrum verdict and configured threshold
`CutoffFreq`, the final `IsFake` is true exactly when the verdict was fake or
`MaxFrequency < CutoffFreq`; the status is FAKE exactly when the final `IsFake` is
true and OK otherwise; the explanation is the generic below-threshold text exactly
when `MaxFrequency < CutoffFreq` and the verdict was not fake, and in every other
case it is the explanation of the verdict, unchanged.  When the verdict is the
one `AnalyzeSpectrum` returns for the decoded samples, this is the result of
`analyzeFile`. -/
theorem analyzeFile_threshold_override {C : Type} (E : Extern C) (o : IterOrder)
    (a : Analyzer) (filePath : String) (audioFile : AudioFile)
    (spectrumResult : SpectrumResult) (result : AnalysisResult) :
    ((fillAnalysis a.config audioFile result spectrumResult).Analysis.IsFake = true ↔
      spectrumResult.IsFake = true ∨ spectrumResult.MaxFrequency < a.config.CutoffFreq) ∧
    ((fillAnalysis a.config audioFile result spectrumResult).Status = "FAKE" ↔
      (fillAnalysis a.config audioFile result spectrumResult).Analysis.IsFake = true) ∧
    ((fillAnalysis a.config audioFile result spectrumResult).Status = "OK" ↔
      (fillAnalysis a.config audioFile result spectrumResult).Analysis.IsFake = false) ∧
    ((fillAnalysis a.config audioFile result spectrumResult).Analysis.Details =
        Explanation.belowThreshold spectrumResult.MaxFrequency a.config.CutoffFreq ↔
      spectrumResult.MaxFrequency < a.config.CutoffFreq ∧ spectrumResult.IsFake = false) ∧
    (¬ (spectrumResult.MaxFrequency < a.config.CutoffFreq ∧ spectrumResult.IsFake = false) →
      (fillAnalysis a.config audioFile result spectrumResult).Analysis.Details =
        Explanation.spectrum spectrumResult.Details) ∧
    (a.DecodeFile filePath = Except.ok audioFile →
      ∀ samples, audioFile.samples = Except.ok samples →
        (AnalyzeSpectrum E o (NewSpectrumAnalyzer audioFile.sampleRate) samples).2 =
          GoResult.ok spectrumResult →
        analyzeFile E o a filePath =
          some (fillAnalysis a.config audioFile
            { FilePath := filePath, Format := audioFile.format, Metadata := audioFile.metadata,
              Status := "ERROR", Analysis := AnalysisDetails.zero, Error := "" }
            spectrumResult)) := by
  have hstatus := fillAnalysis_Status a.config audioFile result spectrumResult
  refine ⟨?_, ?_, ?_, ?_, ?_, ?_⟩
  · rw [fillAnalysis_IsFake, Bool.or_eq_true, decide_eq_true_eq]
  · rcases hstatus with ⟨h1, h2⟩ | ⟨h1, h2⟩
    · rw [h1, h2]
      exact ⟨fun _ => rfl, fun _ => rfl⟩
    · rw [h1, h2]
      exact ⟨fun h => absurd h (by decide), fun h => absurd h (by decide)⟩
  · rcases hstatus with ⟨h1, h2⟩ | ⟨h1, h2⟩
    · rw [h1, h2]
      exact ⟨fun h => absurd h (by decide), fun h => absurd h (by decide)⟩
    · rw [h1, h2]
      exact ⟨fun _ => rfl, fun _ => rfl⟩
  · rw [fillAnalysis_Details]
    by_cases hc : spectrumResult.MaxFrequency < a.config.CutoffFreq ∧
        spectrumResult.IsFake = false
    · rw [if_pos hc]
      exact ⟨fun _ => hc, fun _ => rfl⟩
    · rw [if_neg hc]
      exact ⟨fun h => (by cases h), fun h => absurd h hc⟩
  · intro hno
    rw [fillAnalysis_Details, if_neg hno]
  · intro hd samples hs hr
    unfold analyzeFile
    simp only [hd, hs, hr]

theorem analyzeFile_threshold_override_witness :
    ∃ spectrumResult,
      (AnalyzeSpectrum rationalExtern IterOrder.declared (NewSpectrumAnalyzer 44100)
        [1 / 2, -1 / 4, 1 / 8]).2 = GoResult.ok spectrumResult ∧
      analyzeFile rationalExtern IterOrder.declared sampleAnalyzer "a.wav" =
        some (fillAnalysis sampleAnalyzer.config
          { format := "WAV", sampleRate := 44100, bitDepth := 16, channels := 1, duration := 0,
            samples := Except.ok [1 / 2, -1 / 4, 1 / 8], metadata := AudioMetadata.zero }
          { FilePath := "a.wav", Format := "WAV", Metadata := AudioMetadata.zero,
            Status := "ERROR", Analysis := AnalysisDetails.zero, Error := "" }
          spectrumResult) := by
  rcases AnalyzeSpectrum_fresh rationalExtern IterOrder.declared 44100 [1 / 2, -1 / 4, 1 / 8]
    with ⟨hnil, _⟩ | ⟨_, sr, hsr⟩
  · simp at hnil
  · exact ⟨sr, hsr,
      (analyzeFile_threshold_override rationalExtern IterOrder.declared sampleAnalyzer "a.wav"
        { format := "WAV", sampleRate := 44100, bitDepth := 16, channels := 1, duration := 0,
          samples := Except.ok [1 / 2, -1 / 4, 1 / 8], metadata := AudioMetadata.zero }
        sr
        { FilePath := "a.wav", Format := "WAV", Metadata := AudioMetadata.zero,
          Status := "ERROR", Analysis := AnalysisDetails.zero, Error := "" }).2.2.2.2.2
        rfl [1 / 2, -1 / 4, 1 / 8] rfl hsr⟩

/-- C12: with decoding and the sample read as operations that succeed or fail,
`analyzeFile` returns for every path one result, without panic; its `FilePath` is
the path and its status is OK, FAKE or ERROR; the status is ERROR exactly when
decoding fails, the sample read fails or there are no samples, and then the error
message is not empty; otherwise the status is OK or FAKE and the error message is
empty. -/
theorem analyzeFile_one_result {C : Type} (E : Extern C) (o : IterOrder) (a : Analyzer)
    (filePath : String) :
    ∃ r, analyzeFile E o a filePath = some r ∧ r.FilePath = filePath ∧
      (r.Status = "OK" ∨ r.Status = "FAKE" ∨ r.Status = "ERROR") ∧
      (r.Status = "ERROR" ↔
        ((∃ err, a.DecodeFile filePath = Except.error err) ∨
          (∃ audioFile err, a.DecodeFile filePath = Except.ok audioFile ∧
            audioFile.samples = Except.error err) ∨
          (∃ audioFile, a.DecodeFile filePath = Except.ok audioFile ∧
            audioFile.samples = Except.ok []))) ∧
      (r.Status = "ERROR" → r.Error ≠ "") ∧
      (r.Status ≠ "ERROR" → (r.Status = "OK" ∨ r.Status = "FAKE") ∧ r.Error = "") := by
  have hfail : analysisFails a filePath = true ↔
      ((∃ err, a.DecodeFile filePath = Except.error err) ∨
        (∃ audioFile err, a.DecodeFile filePath = Except.ok audioFile ∧
          audioFile.samples = Except.error err) ∨
        (∃ audioFile, a.DecodeFile filePath = Except.ok audioFile ∧
          audioFile.samples = Except.ok [])) := by
    unfold analysisFails
    cases hd : a.DecodeFile filePath with
    | error err => simp
    | ok audioFile =>
      cases hs : audioFile.samples with
      | error err => simp [hs]
      | ok samples =>
        cases samples with
        | nil => simp [hs]
        | cons x xs => simp [hs]
  obtain ⟨r, hr, hpath, hcases⟩ := analyzeFile_cases E o a filePath
  refine ⟨r, hr, hpath, ?_, ?_, ?_, ?_⟩
  · rcases hcases with ⟨_, h, _⟩ | ⟨_, h | h, _⟩
    · exact Or.inr (Or.inr h)
    · exact Or.inl h
    · exact Or.inr (Or.inl h)
  · rw [← hfail]
    rcases hcases with ⟨hf, h, _⟩ | ⟨hf, h | h, _⟩
    · simp [hf, h]
    · rw [hf, h]; decide
    · rw [hf, h]; decide
  · intro hst
    rcases hcases with ⟨_, _, he⟩ | ⟨_, h | h, _⟩
    · exact he
    · rw [h] at hst; exact absurd hst (by decide)
    · rw [h] at hst; exact absurd hst (by decide)
  · intro hst
    rcases hcases with ⟨_, h, _⟩ | ⟨_, h, he⟩
    · exact absurd h hst
    · exact ⟨h, he⟩

theorem analyzeFile_one_result_witness :
    (∃ r, analyzeFile rationalExtern IterOrder.declared sampleAnalyzer "x.mp3" = some r ∧
      r.Status = "ERROR" ∧ r.Error ≠ "") ∧
    (∃ r, analyzeFile rationalExtern IterOrder.declared sampleAnalyzer "a.wav" = some r ∧
      (r.Status = "OK" ∨ r.Status = "FAKE") ∧ r.Error = "") := by
  constructor
  · obtain ⟨r, hr, _, _, hiff, herr, _⟩ :=
      analyzeFile_one_result rationalExtern IterOrder.declared sampleAnalyzer "x.mp3"
    have hst : r.Status = "ERROR" := hiff.2 (Or.inl ⟨"不支持的音频格式: mp3", rfl⟩)
    exact ⟨r, hr, hst, herr hst⟩
  · obtain ⟨r, hr, _, _, hiff, _, hok⟩ :=
      analyzeFile_one_result rationalExtern IterOrder.declared sampleAnalyzer "a.wav"
    have hst : r.Status ≠ "ERROR" := by
      intro h
      rcases hiff.1 h with ⟨err, he⟩ | ⟨f, err, hf, hs⟩ | ⟨f, hf, hs⟩
      · simp [sampleAnalyzer] at he
      · simp only [sampleAnalyzer] at hf
        norm_num at hf
        subst hf
        simp at hs
      · simp only [sampleAnalyzer] at hf
        norm_num at hf
        subst hf
        simp at hs
    exact ⟨r, hr, (hok hst).1, (hok hst).2⟩

/-- C13: `AnalyzeFiles` with at least one worker, as the interleaving of its
goroutines under any schedule.  Some schedule runs to the end, every schedule is
finite, and while the main loop is not left some goroutine can step (no deadlock,
no panic).  `results` is closed only after every worker has left, which is after
`jobs` was closed and drained.  When the main loop is left, exactly `N` results are
collected: they are the analyses of the `N` input files in some order, one per
input path, with distinct paths when the inputs are distinct, and a path that
does not decode has status ERROR.  The analysis of a path depends only on the
threshold and on the decoding of that path, not on the other files. -/
theorem AnalyzeFiles_collects {C : Type} (E : Extern C) (a : Analyzer)
    (filePaths : List String) (hP : 1 ≤ a.config.Concurrency) :
    (∃ acts s, run E a filePaths.length acts (initState a filePaths) = some s ∧
      s.returned = true) ∧
    (∀ acts s, run E a filePaths.length acts (initState a filePaths) = some s →
      acts.length ≤ 4 * filePaths.length + a.config.Concurrency.toNat + 3 ∧
      (s.returned = false → ∃ act s', step E a filePaths.length act s = some s') ∧
      (s.resultsClosed = true →
        (∀ w ∈ s.workers, w = Worker.done) ∧ s.jobsClosed = true ∧ s.jobs = [] ∧
          s.pending = []) ∧
      (s.returned = true →
        (s.allResults.map some).Perm (filePaths.map (analyzeFile E IterOrder.declared a)) ∧
        s.allResults.length = filePaths.length ∧
        (s.allResults.map AnalysisResult.FilePath).Perm filePaths ∧
        (filePaths.Nodup → (s.allResults.map AnalysisResult.FilePath).Nodup) ∧
        (∀ r ∈ s.allResults, (∃ err, a.DecodeFile r.FilePath = Except.error err) →
          r.Status = "ERROR"))) ∧
    (∀ (a' : Analyzer) (o : IterOrder) (filePath : String), a'.config = a.config →
      a'.DecodeFile filePath = a.DecodeFile filePath →
      analyzeFile E o a' filePath = analyzeFile E IterOrder.declared a filePath) := by
  have hinit := PoolInv_init E a filePaths
  refine ⟨run_complete E a filePaths _ _ hinit (le_refl _), ?_, ?_⟩
  · intro acts s hrun
    obtain ⟨hinv, hsteps⟩ := run_spec E a filePaths filePaths.length acts _ s hinit hrun
    rw [initState_stepsLeft] at hsteps
    refine ⟨by omega, PoolInv_progress E a filePaths s hinv,
      PoolInv_closed E a filePaths s hinv hP, ?_⟩
    intro hret
    have hperm := PoolInv_returned E a filePaths s hinv hP hret
    have hpaths : (s.allResults.map AnalysisResult.FilePath).Perm filePaths := by
      apply perm_of_map_some
      have h := List.Perm.map (Option.map AnalysisResult.FilePath) hperm
      rw [map_analyzeFile_FilePath] at h
      simpa [List.map_map] using h
    refine ⟨hperm, ?_, hpaths, fun hnd => (List.Perm.nodup_iff hpaths).2 hnd, ?_⟩
    · have h := hperm.length_eq
      simpa using h
    · intro r hr hd
      apply collected_error E IterOrder.declared a filePaths r _ hd
      exact (List.Perm.mem_iff hperm).1 (List.mem_map.2 ⟨r, hr, rfl⟩)
  · intro a' o filePath hc hd
    rw [analyzeFile_congr E o a a' filePath hc hd, analyzeFile_order E IterOrder.declared o]

theorem AnalyzeFiles_collects_witness :
    (1 : Int) ≤ sampleAnalyzer.config.Concurrency ∧
    ∃ acts s, run rationalExtern sampleAnalyzer 2 acts
        (initState sampleAnalyzer ["a.wav", "x.mp3"]) = some s ∧
      s.returned = true ∧ s.allResults.length = 2 ∧
      (s.allResults.map AnalysisResult.FilePath).Perm ["a.wav", "x.mp3"] := by
  have hP : (1 : Int) ≤ sampleAnalyzer.config.Concurrency := by decide
  obtain ⟨⟨acts, s, hrun, hret⟩, hall, _⟩ :=
    AnalyzeFiles_collects rationalExtern sampleAnalyzer ["a.wav", "x.mp3"] hP
  obtain ⟨_, _, _, hfin⟩ := hall acts s hrun
  obtain ⟨_, hlen, hpaths, _, _⟩ := hfin hret
  exact ⟨hP, acts, s, hrun, hret, hlen, hpaths⟩

end AudioLossChecker
